import Mathlib

/-!
# Multi-event checkers

A shallow embedding of the Go code that
`cmd/protoc-gen-go-tetragon/eventchecker/multichecker.go` emits: the
`OrderedEventChecker`, the `UnorderedEventChecker` and the `FnEventChecker`,
followed by theorems about their stepwise matching behaviour.

Conventions of the embedding:

* a Go `error` is `Option Error` (`none` is `nil`);
* a `*logrus.Logger` argument is `Option Logger` (`none` is the nil pointer);
  a logger is the sequence of messages it has received, and every operation
  returns the logger it leaves behind;
* a method with a pointer receiver takes the checker and returns the checker
  it leaves behind;
* `container/list` lists are Lean lists: `PushBack` appends one value,
  `PushBackList` appends a copy of another list, `Remove` erases the element
  under the cursor, `Len` is the length;
* every call of `CheckEvent` is recorded, in call order, in the `calls` field
  of the result, so that "this check was (not) consulted" can be stated.
-/

namespace eventchecker

/-! ## Errors and loggers -/

/-- A non-nil Go `error`: a format string and its integer arguments. The
errors returned by collaborators (`CheckEvent`, `EventFromResponse`) are
arbitrary values of this type. -/
structure Error where
  format : String
  args : List Int
deriving DecidableEq, Repr

/-- Modelled from the spec: `common.FmtErrorf` is not among the sources; it
emits the call `fmt.Errorf(format, args...)`, whose value is the error that
reports the given numbers under the given format. -/
def Errorf (format : String) (args : List Int) : Error :=
  { format := format, args := args }

/-- An argument of a logging call. -/
inductive LogArg where
  | int (n : Int)
  | error (e : Error)
deriving DecidableEq, Repr

/-- One message received by a logger. -/
structure LogEntry where
  format : String
  args : List LogArg
deriving DecidableEq, Repr

/-- A `logrus.Logger`, as the messages it has received so far. -/
structure Logger where
  entries : List LogEntry
deriving DecidableEq, Repr

/-- The call `logger.Infof(format, args...)`. -/
def Logger.Infof (logger : Logger) (format : String) (args : List LogArg) : Logger :=
  { entries := logger.entries ++ [{ format := format, args := args }] }

/-! ## The collaborators -/

/-- The `EventChecker` capability: `CheckEvent` returns `nil` when the event
is accepted and an error when it is rejected. -/
structure EventChecker (Event : Type) where
  CheckEvent : Event → Option Error

/-- What a `NextEventCheck` or `NextResponseCheck` call leaves behind and
returns: the checker, the logger, the `CheckEvent` calls it made, and the
returned pair `(done, err)`. -/
structure StepResult (S Event : Type) where
  checker : S
  logger : Option Logger
  calls : List (EventChecker Event)
  done : Bool
  err : Option Error

/-- What a `FinalCheck` call leaves behind and returns. -/
structure FinalResult (S : Type) where
  checker : S
  logger : Option Logger
  err : Option Error

variable {Event Response σ : Type}

/-! ## OrderedEventChecker -/

/-- The ordered checker: the list of checks and the cursor. The cursor is a
Go `int` that starts at 0 and is only incremented or reset to 0. -/
structure OrderedEventChecker (Event : Type) where
  checks : List (EventChecker Event)
  idx : Nat

/-- The constructor `NewOrderedEventChecker(checks...)`. -/
def NewOrderedEventChecker (checks : List (EventChecker Event)) :
    OrderedEventChecker Event :=
  { checks := checks, idx := 0 }

/-- The method `(*OrderedEventChecker).NextEventCheck`. -/
def OrderedEventChecker.NextEventCheck (checker : OrderedEventChecker Event)
    (event : Event) (logger : Option Logger) :
    StepResult (OrderedEventChecker Event) Event :=
  if h : checker.idx ≥ checker.checks.length then
    { checker := checker, logger := logger, calls := [], done := true, err := none }
  else
    let check := checker.checks.get ⟨checker.idx, Nat.lt_of_not_ge h⟩
    match check.CheckEvent event with
    | some err =>
      { checker := checker, logger := logger, calls := [check], done := false,
        err := some err }
    | none =>
      let checker1 : OrderedEventChecker Event := { checker with idx := checker.idx + 1 }
      if checker1.idx = checker1.checks.length then
        { checker := checker1,
          logger := logger.map fun l =>
            l.Infof "OrderedEventChecker: all %d checks matched"
              [LogArg.int checker1.checks.length],
          calls := [check], done := true, err := none }
      else
        { checker := checker1,
          logger := logger.map fun l =>
            l.Infof "OrderedEventChecker: %d/%d matched"
              [LogArg.int checker1.idx, LogArg.int checker1.checks.length],
          calls := [check], done := false, err := none }

/-- The method `(*OrderedEventChecker).NextResponseCheck`; the adapter
`EventFromResponse` is a parameter. -/
def OrderedEventChecker.NextResponseCheck
    (EventFromResponse : Response → Except Error Event)
    (checker : OrderedEventChecker Event) (response : Response)
    (logger : Option Logger) : StepResult (OrderedEventChecker Event) Event :=
  match EventFromResponse response with
  | Except.error err =>
    { checker := checker, logger := logger, calls := [], done := false, err := some err }
  | Except.ok event => checker.NextEventCheck event logger

/-- The method `(*OrderedEventChecker).FinalCheck`. -/
def OrderedEventChecker.FinalCheck (checker : OrderedEventChecker Event)
    (logger : Option Logger) : FinalResult (OrderedEventChecker Event) :=
  let idx := checker.idx
  let checker1 : OrderedEventChecker Event := { checker with idx := 0 }
  if idx ≥ checker1.checks.length then
    { checker := checker1, logger := logger, err := none }
  else
    { checker := checker1, logger := logger,
      err := some (Errorf "OrderedEventChecker: only %d/%d matched"
        [(idx : Int), (checker1.checks.length : Int)]) }

/-- The method `(*OrderedEventChecker).AddChecks`: the loop appends the new
checks one by one. -/
def OrderedEventChecker.AddChecks (checker : OrderedEventChecker Event) :
    List (EventChecker Event) → OrderedEventChecker Event
  | [] => checker
  | check :: rest =>
    OrderedEventChecker.AddChecks { checker with checks := checker.checks ++ [check] } rest

/-- The method `(*OrderedEventChecker).GetChecks`, as the contents of the
returned slice at the time of the call. The code returns the slice of the
checker itself; what later writes through a shared backing array do to it is
followed by `slices.OrderedEventChecker.GetChecks` below. -/
def OrderedEventChecker.GetChecks (checker : OrderedEventChecker Event) :
    List (EventChecker Event) :=
  checker.checks

/-! ## UnorderedEventChecker -/

/-- The unordered checker: the pending list, the total count and the master
list. -/
structure UnorderedEventChecker (Event : Type) where
  pendingChecks : List (EventChecker Event)
  totalChecks : Nat
  allChecks : List (EventChecker Event)

/-- The loop `for _, c := range checks { l.PushBack(c) }`. -/
def pushBackAll (l : List (EventChecker Event)) :
    List (EventChecker Event) → List (EventChecker Event)
  | [] => l
  | c :: rest => pushBackAll (l ++ [c]) rest

/-- The constructor `NewUnorderedEventChecker(checks...)`. -/
def NewUnorderedEventChecker (checks : List (EventChecker Event)) :
    UnorderedEventChecker Event :=
  let allList := pushBackAll [] checks
  let pendingList := [] ++ allList
  { allChecks := allList, pendingChecks := pendingList, totalChecks := checks.length }

/-- The `for e := pendingChecks.Front(); e != nil; e = e.Next()` loop of
`NextEventCheck`, from the element at position `pos` on: `rest` are the
elements from the cursor to the back, `pending` is the length captured on
entry, `idx` the one-based counter used in the log lines, `calls` the
`CheckEvent` calls made so far. Falling off the end returns the
"all checks failed" error. -/
def UnorderedEventChecker.scanPending (checker : UnorderedEventChecker Event)
    (event : Event) (pending : Int) :
    List (EventChecker Event) → Nat → Int → Option Logger →
      List (EventChecker Event) → StepResult (UnorderedEventChecker Event) Event
  | [], _, _, logger, calls =>
    { checker := checker, logger := logger, calls := calls, done := false,
      err := some (Errorf "UnorderedEventChecker: all %d checks failed" [pending]) }
  | check :: rest, pos, idx, logger, calls =>
    match check.CheckEvent event with
    | none =>
      let checker1 : UnorderedEventChecker Event :=
        { checker with pendingChecks := checker.pendingChecks.eraseIdx pos }
      let pending1 := pending - 1
      if pending1 > 0 then
        { checker := checker1, logger := logger, calls := calls ++ [check],
          done := false, err := none }
      else
        { checker := checker1,
          logger := logger.map fun l =>
            l.Infof "UnorderedEventChecker: all %d checks matched"
              [LogArg.int checker.totalChecks],
          calls := calls ++ [check], done := true, err := none }
    | some err =>
      UnorderedEventChecker.scanPending checker event pending rest (pos + 1) (idx + 1)
        (logger.map fun l =>
          l.Infof "UnorderedEventChecker: checking %d/%d: failure: %s"
            [LogArg.int idx, LogArg.int pending, LogArg.error err])
        (calls ++ [check])

/-- The method `(*UnorderedEventChecker).NextEventCheck`. -/
def UnorderedEventChecker.NextEventCheck (checker : UnorderedEventChecker Event)
    (event : Event) (logger : Option Logger) :
    StepResult (UnorderedEventChecker Event) Event :=
  let pending : Int := checker.pendingChecks.length
  if pending = 0 then
    { checker := checker, logger := logger, calls := [], done := true, err := none }
  else
    let logger1 := logger.map fun l =>
      l.Infof "UnorderedEventChecker: %d/%d matched"
        [LogArg.int ((checker.totalChecks : Int) - pending),
         LogArg.int checker.totalChecks]
    checker.scanPending event pending checker.pendingChecks 0 1 logger1 []

/-- The method `(*UnorderedEventChecker).NextResponseCheck`; the adapter
`EventFromResponse` is a parameter. -/
def UnorderedEventChecker.NextResponseCheck
    (EventFromResponse : Response → Except Error Event)
    (checker : UnorderedEventChecker Event) (response : Response)
    (logger : Option Logger) : StepResult (UnorderedEventChecker Event) Event :=
  match EventFromResponse response with
  | Except.error err =>
    { checker := checker, logger := logger, calls := [], done := false, err := some err }
  | Except.ok event => checker.NextEventCheck event logger

/-- The method `(*UnorderedEventChecker).FinalCheck`. -/
def UnorderedEventChecker.FinalCheck (checker : UnorderedEventChecker Event)
    (logger : Option Logger) : FinalResult (UnorderedEventChecker Event) :=
  let pending : Int := checker.pendingChecks.length
  let total : Int := checker.totalChecks
  let checker1 : UnorderedEventChecker Event := { checker with pendingChecks := [] }
  let checker2 : UnorderedEventChecker Event :=
    { checker1 with pendingChecks := checker1.pendingChecks ++ checker1.allChecks }
  let checker3 : UnorderedEventChecker Event :=
    { checker2 with totalChecks := checker2.pendingChecks.length }
  if pending = 0 then
    { checker := checker3, logger := logger, err := none }
  else
    { checker := checker3, logger := logger,
      err := some (Errorf "UnorderedEventChecker: %d/%d checks remain" [pending, total]) }

/-- The method `(*UnorderedEventChecker).AddChecks`: each new check is pushed
to the back of both lists and counted. -/
def UnorderedEventChecker.AddChecks (checker : UnorderedEventChecker Event) :
    List (EventChecker Event) → UnorderedEventChecker Event
  | [] => checker
  | check :: rest =>
    UnorderedEventChecker.AddChecks
      { pendingChecks := checker.pendingChecks ++ [check],
        allChecks := checker.allChecks ++ [check],
        totalChecks := checker.totalChecks + 1 } rest

/-- The method `(*UnorderedEventChecker).GetChecks`: walks the master list
and collects its values (each of them is an `EventChecker`). -/
def UnorderedEventChecker.GetChecks (checker : UnorderedEventChecker Event) :
    List (EventChecker Event) :=
  checker.allChecks.foldl (fun checks check => checks ++ [check]) []

/-! ## FnEventChecker -/

/-- What a step callable returns and leaves behind: the environment its
closure captured, the logger, and the pair `(done, err)`. -/
structure FnStepResult (σ : Type) where
  env : σ
  logger : Option Logger
  done : Bool
  err : Option Error

/-- What a finalize callable returns and leaves behind. -/
structure FnFinalResult (σ : Type) where
  env : σ
  logger : Option Logger
  err : Option Error

/-- The function checker: two stored callables. A callable is a Go closure;
the variables it captured form the environment `σ`, which it may read and
change. -/
structure FnEventChecker (σ Event : Type) where
  NextCheckFn : σ → Event → Option Logger → FnStepResult σ
  FinalCheckFn : σ → Option Logger → FnFinalResult σ

/-- The method `(*FnEventChecker).NextEventCheck`. -/
def FnEventChecker.NextEventCheck (checker : FnEventChecker σ Event) (env : σ)
    (event : Event) (logger : Option Logger) : FnStepResult σ :=
  checker.NextCheckFn env event logger

/-- The method `(*FnEventChecker).NextResponseCheck`; the adapter
`EventFromResponse` is a parameter. -/
def FnEventChecker.NextResponseCheck
    (EventFromResponse : Response → Except Error Event)
    (checker : FnEventChecker σ Event) (env : σ) (response : Response)
    (logger : Option Logger) : FnStepResult σ :=
  match EventFromResponse response with
  | Except.error err => { env := env, logger := logger, done := false, err := some err }
  | Except.ok event => checker.NextEventCheck env event logger

/-- The method `(*FnEventChecker).FinalCheck`. -/
def FnEventChecker.FinalCheck (checker : FnEventChecker σ Event) (env : σ)
    (logger : Option Logger) : FnFinalResult σ :=
  checker.FinalCheckFn env logger

/-! ## Sample events and checks

Concrete inputs on which the theorems below are instantiated. -/

/-- Sample events: three expected events and three foreign ones. -/
inductive SampleEvent where
  | A | B | C | x | y | z
deriving DecidableEq, Repr

/-- The error with which the sample checks reject an event. -/
def mismatch : Error := { format := "mismatch", args := [] }

/-- A check that accepts exactly the events on which `p` holds. -/
def checkFor (p : Event → Bool) : EventChecker Event :=
  { CheckEvent := fun event => if p event then none else some mismatch }

/-- The sample check that accepts only `SampleEvent.A`. -/
def checkA : EventChecker SampleEvent := checkFor fun e => decide (e = SampleEvent.A)

/-- The sample check that accepts only `SampleEvent.B`. -/
def checkB : EventChecker SampleEvent := checkFor fun e => decide (e = SampleEvent.B)

/-- The sample check that accepts only `SampleEvent.C`. -/
def checkC : EventChecker SampleEvent := checkFor fun e => decide (e = SampleEvent.C)

/-! ## Well-formed states -/

/-- The range of the cursor in the data model: `idx ∈ [0, len]`. -/
def OrderedEventChecker.WF (checker : OrderedEventChecker Event) : Prop :=
  checker.idx ≤ checker.checks.length

instance (checker : OrderedEventChecker Event) : Decidable checker.WF :=
  inferInstanceAs (Decidable (checker.idx ≤ checker.checks.length))

/-! ## Reachable states -/

/-- The states an ordered checker can be in: built by the constructor and
then driven through `NextEventCheck`, `NextResponseCheck`, `AddChecks` and
`FinalCheck`. -/
inductive OrderedEventChecker.Reachable : OrderedEventChecker Event → Prop where
  | new (checks : List (EventChecker Event)) :
    OrderedEventChecker.Reachable (NewOrderedEventChecker checks)
  | nextEvent (checker : OrderedEventChecker Event) (event : Event)
    (logger : Option Logger) :
    OrderedEventChecker.Reachable checker →
    OrderedEventChecker.Reachable (checker.NextEventCheck event logger).checker
  | nextResponse (Response : Type) (EventFromResponse : Response → Except Error Event)
    (checker : OrderedEventChecker Event) (response : Response) (logger : Option Logger) :
    OrderedEventChecker.Reachable checker →
    OrderedEventChecker.Reachable
      (checker.NextResponseCheck EventFromResponse response logger).checker
  | addChecks (checker : OrderedEventChecker Event) (checks : List (EventChecker Event)) :
    OrderedEventChecker.Reachable checker →
    OrderedEventChecker.Reachable (checker.AddChecks checks)
  | finalCheck (checker : OrderedEventChecker Event) (logger : Option Logger) :
    OrderedEventChecker.Reachable checker →
    OrderedEventChecker.Reachable (checker.FinalCheck logger).checker

/-- The states an unordered checker can be in: built by the constructor and
then driven through `NextEventCheck`, `NextResponseCheck`, `AddChecks` and
`FinalCheck`. -/
inductive UnorderedEventChecker.Reachable : UnorderedEventChecker Event → Prop where
  | new (checks : List (EventChecker Event)) :
    UnorderedEventChecker.Reachable (NewUnorderedEventChecker checks)
  | nextEvent (checker : UnorderedEventChecker Event) (event : Event)
    (logger : Option Logger) :
    UnorderedEventChecker.Reachable checker →
    UnorderedEventChecker.Reachable (checker.NextEventCheck event logger).checker
  | nextResponse (Response : Type) (EventFromResponse : Response → Except Error Event)
    (checker : UnorderedEventChecker Event) (response : Response) (logger : Option Logger) :
    UnorderedEventChecker.Reachable checker →
    UnorderedEventChecker.Reachable
      (checker.NextResponseCheck EventFromResponse response logger).checker
  | addChecks (checker : UnorderedEventChecker Event) (checks : List (EventChecker Event)) :
    UnorderedEventChecker.Reachable checker →
    UnorderedEventChecker.Reachable (checker.AddChecks checks)
  | finalCheck (checker : UnorderedEventChecker Event) (logger : Option Logger) :
    UnorderedEventChecker.Reachable checker →
    UnorderedEventChecker.Reachable (checker.FinalCheck logger).checker

/-! ## Feeding a stream

The driver of a checker feeds it the events of a stream one at a time. -/

/-- What feeding a stream leaves behind and returns: the checker, the logger
and the pair `(done, err)` of every step, in order. -/
structure RunResult (S : Type) where
  checker : S
  logger : Option Logger
  results : List (Bool × Option Error)

/-- Feeds the events of a stream, one `NextEventCheck` call per event. -/
def OrderedEventChecker.feed (checker : OrderedEventChecker Event)
    (logger : Option Logger) : List Event → RunResult (OrderedEventChecker Event)
  | [] => { checker := checker, logger := logger, results := [] }
  | event :: events =>
    let step := checker.NextEventCheck event logger
    let run := OrderedEventChecker.feed step.checker step.logger events
    { run with results := (step.done, step.err) :: run.results }

/-- Feeds the events of a stream, one `NextEventCheck` call per event. -/
def UnorderedEventChecker.feed (checker : UnorderedEventChecker Event)
    (logger : Option Logger) : List Event → RunResult (UnorderedEventChecker Event)
  | [] => { checker := checker, logger := logger, results := [] }
  | event :: events =>
    let step := checker.NextEventCheck event logger
    let run := UnorderedEventChecker.feed step.checker step.logger events
    { run with results := (step.done, step.err) :: run.results }

/-- The sample adapter: a response either carries an event or is a control
frame without one. -/
def sampleEventFromResponse : Option SampleEvent → Except Error SampleEvent
  | some event => Except.ok event
  | none => Except.error { format := "unknown event type", args := [] }

/-- The step callable of the sample function checker: its environment counts
the calls, and it reports done, with an error, from the third call on. -/
def countingNextCheckFn (env : Nat) (_event : SampleEvent) (logger : Option Logger) :
    FnStepResult Nat :=
  if 2 ≤ env then
    { env := env + 1, logger := logger, done := true, err := some mismatch }
  else
    { env := env + 1, logger := logger, done := false, err := none }

/-- The finalize callable of the sample function checker: it fails when the
step callable was never called, and resets the count. -/
def countingFinalCheckFn (env : Nat) (logger : Option Logger) : FnFinalResult Nat :=
  if env = 0 then
    { env := 0, logger := logger, err := some mismatch }
  else
    { env := 0, logger := logger, err := none }

/-- A sample function checker built from the two counting callables. -/
def countingFnChecker : FnEventChecker Nat SampleEvent :=
  { NextCheckFn := countingNextCheckFn, FinalCheckFn := countingFinalCheckFn }

/-! ## Matching a stream in order -/

/-- The check accepts the event at position `pos` of the stream. -/
def acceptsAt (events : List Event) (check : EventChecker Event) (pos : Nat) : Prop :=
  ∃ event, events[pos]? = some event ∧ check.CheckEvent event = none

/-- There are stream positions `i1 < i2 < ... < in`, one per check, such that
the `j`-th check accepts the event at position `ij`. -/
def MatchesInOrder (checks : List (EventChecker Event)) (events : List Event) : Prop :=
  ∃ positions : List Nat,
    positions.Pairwise (fun i j => i < j) ∧ List.Forall₂ (acceptsAt events) checks positions

/-- The earliest-match scan of a stream: the first check takes the first
event it accepts, the second check the first later event it accepts, and so
on; true when every check gets an event. -/
def greedyMatch : List (EventChecker Event) → List Event → Bool
  | [], _ => true
  | _ :: _, [] => false
  | check :: checks, event :: events =>
    match check.CheckEvent event with
    | none => greedyMatch checks events
    | some _ => greedyMatch (check :: checks) events

/-! ## Matching a stream in any order -/

/-- The predicates of the checks do not overlap on the stream: no event of
the stream is accepted by the checks at two different positions of the list. -/
def NoOverlap (checks : List (EventChecker Event)) (events : List Event) : Prop :=
  ∀ event ∈ events,
    checks.Pairwise fun c d => ¬ (c.CheckEvent event = none ∧ d.CheckEvent event = none)

/-- The check rejects every event of the stream. -/
def rejectsAll (events : List Event) (check : EventChecker Event) : Bool :=
  events.all fun event => (check.CheckEvent event).isSome

/-! ## Sequences of calls -/

/-- A call that a driver makes on a checker. -/
inductive Call (Event : Type) where
  | nextEvent (event : Event) (logger : Option Logger)
  | finalCheck (logger : Option Logger)
  | addChecks (checks : List (EventChecker Event))

/-- What a call returns to the driver. -/
inductive Outcome where
  | step (done : Bool) (err : Option Error)
  | verdict (err : Option Error)
  | added
deriving DecidableEq, Repr

/-- One call on an ordered checker: the checker it leaves behind and what it
returns. -/
def OrderedEventChecker.call (checker : OrderedEventChecker Event) :
    Call Event → OrderedEventChecker Event × Outcome
  | Call.nextEvent event logger =>
    ((checker.NextEventCheck event logger).checker,
     Outcome.step (checker.NextEventCheck event logger).done
       (checker.NextEventCheck event logger).err)
  | Call.finalCheck logger =>
    ((checker.FinalCheck logger).checker, Outcome.verdict (checker.FinalCheck logger).err)
  | Call.addChecks checks => (checker.AddChecks checks, Outcome.added)

/-- A sequence of calls on an ordered checker: the checker it leaves behind
and what the calls return, in order. -/
def OrderedEventChecker.runCalls (checker : OrderedEventChecker Event) :
    List (Call Event) → OrderedEventChecker Event × List Outcome
  | [] => (checker, [])
  | c :: cs =>
    ((OrderedEventChecker.runCalls (checker.call c).1 cs).1,
     (checker.call c).2 :: (OrderedEventChecker.runCalls (checker.call c).1 cs).2)

/-- One call on an unordered checker: the checker it leaves behind and what
it returns. -/
def UnorderedEventChecker.call (checker : UnorderedEventChecker Event) :
    Call Event → UnorderedEventChecker Event × Outcome
  | Call.nextEvent event logger =>
    ((checker.NextEventCheck event logger).checker,
     Outcome.step (checker.NextEventCheck event logger).done
       (checker.NextEventCheck event logger).err)
  | Call.finalCheck logger =>
    ((checker.FinalCheck logger).checker, Outcome.verdict (checker.FinalCheck logger).err)
  | Call.addChecks checks => (checker.AddChecks checks, Outcome.added)

/-- A sequence of calls on an unordered checker: the checker it leaves behind
and what the calls return, in order. -/
def UnorderedEventChecker.runCalls (checker : UnorderedEventChecker Event) :
    List (Call Event) → UnorderedEventChecker Event × List Outcome
  | [] => (checker, [])
  | c :: cs =>
    ((UnorderedEventChecker.runCalls (checker.call c).1 cs).1,
     (checker.call c).2 :: (UnorderedEventChecker.runCalls (checker.call c).1 cs).2)

/-- The arguments of the `AddChecks` calls of a sequence, in call and
insertion order. -/
def addedChecks : List (Call Event) → List (EventChecker Event)
  | [] => []
  | Call.addChecks checks :: rest => checks ++ addedChecks rest
  | Call.nextEvent _ _ :: rest => addedChecks rest
  | Call.finalCheck _ :: rest => addedChecks rest

/-! ## Loggers across a call -/

/-- The logger after a call is the logger before it with zero or more
messages appended; an absent logger stays absent. -/
def receives : Option Logger → Option Logger → Prop
  | none, none => True
  | some l, some l2 => ∃ msgs : List LogEntry, l2.entries = l.entries ++ msgs
  | none, some _ => False
  | some _, none => False

/-! ## Assignments of events to checks -/

/-- There is an assignment of pairwise distinct stream positions to the
checks such that every check accepts the event at its position. -/
def HasAssignment (checks : List (EventChecker Event)) (events : List Event) : Prop :=
  ∃ positions : List Nat,
    positions.Nodup ∧ List.Forall₂ (acceptsAt events) checks positions

/-- The sample check that accepts `SampleEvent.x` and `SampleEvent.y`. -/
def checkXY : EventChecker SampleEvent :=
  checkFor fun e => decide (e = SampleEvent.x) || decide (e = SampleEvent.y)

/-- The sample check that accepts only `SampleEvent.x`. -/
def checkX : EventChecker SampleEvent := checkFor fun e => decide (e = SampleEvent.x)

/-! ## The checks of the ordered checker as a Go slice

`NewOrderedEventChecker` stores the slice it is given, `AddChecks` appends to
that slice in place and `GetChecks` returns it, so a checker, its caller and
any checker built from `GetChecks()` can hold slices on one backing array.
The definitions below follow the slice headers and the backing arrays; the
value-level `OrderedEventChecker` above is what a single holder sees. -/

/-- A Go slice header: the backing array it points into (its index in the
heap), its length and its capacity. Every slice of this program starts at the
front of its backing array. -/
structure Slice where
  array : Nat
  len : Nat
  cap : Nat
deriving DecidableEq, Repr

/-- The backing arrays allocated so far, in allocation order; a slot that was
never written holds the nil interface (`none`). -/
abbrev Heap (Event : Type) := List (List (Option (EventChecker Event)))

/-- The elements of a slice: the first `len` slots of its backing array. -/
def Heap.elems (heap : Heap Event) (s : Slice) : List (Option (EventChecker Event)) :=
  (heap.getD s.array []).take s.len

/-- The argument slice of a variadic call with explicit arguments: a fresh
backing array holding exactly the arguments. -/
def Heap.variadic (heap : Heap Event) (values : List (EventChecker Event)) :
    Heap Event × Slice :=
  (heap ++ [values.map some],
   { array := heap.length, len := values.length, cap := values.length })

/-- The builtin `append(s, v)`. With spare capacity the value is written into
the backing array of `s`, right behind its elements; otherwise the elements
are copied into a fresh backing array whose capacity the runtime chooses
(`grow` of the old capacity, and at least one more than the length). -/
def Heap.append (grow : Nat → Nat) (heap : Heap Event) (s : Slice)
    (v : Option (EventChecker Event)) : Heap Event × Slice :=
  if s.len < s.cap then
    (heap.set s.array ((heap.getD s.array []).set s.len v), { s with len := s.len + 1 })
  else
    let newcap := max (grow s.cap) (s.len + 1)
    (heap ++ [heap.elems s ++ v :: List.replicate (newcap - (s.len + 1)) none],
     { array := heap.length, len := s.len + 1, cap := newcap })

/-- The capacity the Go runtime gives a full slice of fewer than 256 elements
when one element is appended: twice the old capacity (1 for an empty slice). -/
def growDouble (cap : Nat) : Nat :=
  if cap = 0 then 1 else 2 * cap

namespace slices

/-- The ordered checker as the code stores it: the slice header of the checks
and the cursor. -/
structure OrderedEventChecker where
  checks : Slice
  idx : Nat
deriving DecidableEq, Repr

/-- The constructor `NewOrderedEventChecker(checks...)`: the slice is stored as
it is passed, not copied. -/
def NewOrderedEventChecker (checks : Slice) : OrderedEventChecker :=
  { checks := checks, idx := 0 }

/-- The loop of `AddChecks` from the `i`-th argument on, with `remaining`
arguments to go: each argument is read from the argument slice and appended
to the slice of the checker. -/
def OrderedEventChecker.addLoop (grow : Nat → Nat) (checks : Slice) :
    Nat → Nat → Heap Event × OrderedEventChecker → Heap Event × OrderedEventChecker
  | 0, _, state => state
  | remaining + 1, i, (heap, checker) =>
    let check := (heap.getD checks.array []).getD i none
    let appended := Heap.append grow heap checker.checks check
    OrderedEventChecker.addLoop grow checks remaining (i + 1)
      (appended.1, { checker with checks := appended.2 })

/-- The method `(*OrderedEventChecker).AddChecks`, on the argument slice
`checks`. -/
def OrderedEventChecker.AddChecks (grow : Nat → Nat) (heap : Heap Event)
    (checker : OrderedEventChecker) (checks : Slice) : Heap Event × OrderedEventChecker :=
  OrderedEventChecker.addLoop grow checks checks.len 0 (heap, checker)

/-- The method `(*OrderedEventChecker).GetChecks`: the slice of the checker
itself, not a copy. -/
def OrderedEventChecker.GetChecks (checker : OrderedEventChecker) : Slice :=
  checker.checks

end slices

/-- What `c.GetChecks()` holds at the end of this run, for a runtime that
grows slices by `grow`:
`c := NewOrderedEventChecker(A, B, C)`, `c.AddChecks(X)`,
`f := NewOrderedEventChecker(c.GetChecks()...)`, `c.AddChecks(XY)`,
`f.AddChecks(A)`. -/
def sharedSliceRun (grow : Nat → Nat) : List (Option (EventChecker SampleEvent)) :=
  let args0 := Heap.variadic ([] : Heap SampleEvent) [checkA, checkB, checkC]
  let c0 := slices.NewOrderedEventChecker args0.2
  let args1 := Heap.variadic args0.1 [checkX]
  let c1 := slices.OrderedEventChecker.AddChecks grow args1.1 c0 args1.2
  let f0 := slices.NewOrderedEventChecker c1.2.GetChecks
  let args2 := Heap.variadic c1.1 [checkXY]
  let c2 := slices.OrderedEventChecker.AddChecks grow args2.1 c1.2 args2.2
  let args3 := Heap.variadic c2.1 [checkA]
  let f1 := slices.OrderedEventChecker.AddChecks grow args3.1 f0 args3.2
  Heap.elems f1.1 c2.2.GetChecks

/-! ## Theorems: OrderedEventChecker, one step -/

/-- C1. `OrderedEventChecker.NextEventCheck`, success case: when
`idx < len(checks)` and `checks[idx]` accepts the event, the call increases
`idx` by exactly 1, leaves the checks list unchanged, returns a nil error, and
returns `done = true` exactly when the new `idx` equals `len(checks)`. -/
theorem ordered_next_success (checker : OrderedEventChecker Event) (event : Event)
    (logger : Option Logger) (h : checker.idx < checker.checks.length)
    (hok : (checker.checks.get ⟨checker.idx, h⟩).CheckEvent event = none) :
    (checker.NextEventCheck event logger).checker.idx = checker.idx + 1 ∧
    (checker.NextEventCheck event logger).checker.checks = checker.checks ∧
    (checker.NextEventCheck event logger).err = none ∧
    ((checker.NextEventCheck event logger).checker.idx =
        (checker.NextEventCheck event logger).checker.checks.length →
      (checker.NextEventCheck event logger).done = true) ∧
    ((checker.NextEventCheck event logger).checker.idx ≠
        (checker.NextEventCheck event logger).checker.checks.length →
      (checker.NextEventCheck event logger).done = false) := by
  have hge : ¬ checker.idx ≥ checker.checks.length := Nat.not_le.mpr h
  unfold OrderedEventChecker.NextEventCheck
  rw [dif_neg hge]
  simp only [hok]
  by_cases hlen : checker.idx + 1 = checker.checks.length
  · simp [hlen]
  · simp [hlen]

/-- Witness of C1 on the checks `[A, B]` at position 1 with event `B`. -/
theorem ordered_next_success_witness :
    (({ checks := [checkA, checkB], idx := 1 } :
        OrderedEventChecker SampleEvent).NextEventCheck SampleEvent.B none).checker.idx = 2 ∧
    (({ checks := [checkA, checkB], idx := 1 } :
        OrderedEventChecker SampleEvent).NextEventCheck SampleEvent.B none).done = true :=
  ⟨(ordered_next_success { checks := [checkA, checkB], idx := 1 } SampleEvent.B none
      (by decide) rfl).1,
   (ordered_next_success { checks := [checkA, checkB], idx := 1 } SampleEvent.B none
      (by decide) rfl).2.2.2.1 rfl⟩

/-- C2. `OrderedEventChecker.NextEventCheck`, failure case: when
`idx < len(checks)` and `checks[idx]` rejects the event with `err`, the call
returns `(false, err)` and leaves the checker (and the logger) unchanged; the
only `CheckEvent` call is the one on `checks[idx]`, the next event is checked
at the same position, and the returned pair is the same for any other checks
list that has the same check at `idx`. -/
theorem ordered_next_failure (checker : OrderedEventChecker Event) (event : Event)
    (logger : Option Logger) (err : Error) (h : checker.idx < checker.checks.length)
    (hrej : (checker.checks.get ⟨checker.idx, h⟩).CheckEvent event = some err) :
    (checker.NextEventCheck event logger).done = false ∧
    (checker.NextEventCheck event logger).err = some err ∧
    (checker.NextEventCheck event logger).checker = checker ∧
    (checker.NextEventCheck event logger).logger = logger ∧
    (checker.NextEventCheck event logger).calls = [checker.checks.get ⟨checker.idx, h⟩] ∧
    (∀ (event2 : Event) (logger2 : Option Logger),
      (((checker.NextEventCheck event logger).checker.NextEventCheck event2 logger2).calls
        = [checker.checks.get ⟨checker.idx, h⟩])) ∧
    (∀ (checks2 : List (EventChecker Event)) (h2 : checker.idx < checks2.length),
      checks2.get ⟨checker.idx, h2⟩ = checker.checks.get ⟨checker.idx, h⟩ →
      ((({ checks := checks2, idx := checker.idx } :
          OrderedEventChecker Event).NextEventCheck event logger).done = false ∧
       (({ checks := checks2, idx := checker.idx } :
          OrderedEventChecker Event).NextEventCheck event logger).err = some err)) := by
  have hge : ¬ checker.idx ≥ checker.checks.length := Nat.not_le.mpr h
  have hstep : checker.NextEventCheck event logger =
      { checker := checker, logger := logger,
        calls := [checker.checks.get ⟨checker.idx, h⟩], done := false, err := some err } := by
    unfold OrderedEventChecker.NextEventCheck
    rw [dif_neg hge]
    simp only [hrej]
  refine ⟨by rw [hstep], by rw [hstep], by rw [hstep], by rw [hstep], by rw [hstep], ?_, ?_⟩
  · intro event2 logger2
    rw [hstep]
    show (checker.NextEventCheck event2 logger2).calls = _
    unfold OrderedEventChecker.NextEventCheck
    rw [dif_neg hge]
    cases hc : (checker.checks.get ⟨checker.idx, h⟩).CheckEvent event2 with
    | some err2 => simp only [hc]
    | none =>
      simp only [hc]
      split <;> rfl
  · intro checks2 h2 hsame
    have hge2 : ¬ checker.idx ≥ checks2.length := Nat.not_le.mpr h2
    unfold OrderedEventChecker.NextEventCheck
    simp only [dif_neg hge2, hsame, hrej, and_self]

/-- Witness of C2 on the checks `[A, B]` at position 0 with the foreign
event `x`. -/
theorem ordered_next_failure_witness :
    (({ checks := [checkA, checkB], idx := 0 } :
        OrderedEventChecker SampleEvent).NextEventCheck SampleEvent.x none).done = false ∧
    (({ checks := [checkA, checkB], idx := 0 } :
        OrderedEventChecker SampleEvent).NextEventCheck SampleEvent.x none).err
      = some mismatch ∧
    (({ checks := [checkA, checkB], idx := 0 } :
        OrderedEventChecker SampleEvent).NextEventCheck SampleEvent.x none).checker
      = { checks := [checkA, checkB], idx := 0 } :=
  ⟨(ordered_next_failure { checks := [checkA, checkB], idx := 0 } SampleEvent.x none mismatch
      (by decide) rfl).1,
   (ordered_next_failure { checks := [checkA, checkB], idx := 0 } SampleEvent.x none mismatch
      (by decide) rfl).2.1,
   (ordered_next_failure { checks := [checkA, checkB], idx := 0 } SampleEvent.x none mismatch
      (by decide) rfl).2.2.1⟩

/-- C3. `OrderedEventChecker.FinalCheck`: on a state of the data model
(`idx ≤ len(checks)`) the returned error is nil if and only if
`idx = len(checks)` at the time of the call; when `idx < len(checks)` it is the
error "only idx/len matched" carrying the cursor and the length captured
before the reset; in every case `idx` is 0 afterwards, the checks list is
unchanged and the logger is untouched. -/
theorem ordered_final_check (checker : OrderedEventChecker Event) (logger : Option Logger) :
    (checker.WF →
      ((checker.FinalCheck logger).err = none ↔ checker.idx = checker.checks.length)) ∧
    (checker.idx < checker.checks.length →
      (checker.FinalCheck logger).err =
        some (Errorf "OrderedEventChecker: only %d/%d matched"
          [(checker.idx : Int), (checker.checks.length : Int)])) ∧
    (checker.FinalCheck logger).checker.idx = 0 ∧
    (checker.FinalCheck logger).checker.checks = checker.checks ∧
    (checker.FinalCheck logger).logger = logger := by
  unfold OrderedEventChecker.WF
  unfold OrderedEventChecker.FinalCheck
  by_cases hge : checker.idx ≥ checker.checks.length
  · have hnlt : ¬ checker.idx < checker.checks.length := Nat.not_lt.mpr hge
    simp only [hge, if_true, true_and, and_self, and_true]
    exact ⟨fun hwf => ⟨fun _ => Nat.le_antisymm hwf hge, fun _ => trivial⟩,
      fun hlt => absurd hlt hnlt⟩
  · have hne : checker.idx ≠ checker.checks.length := fun heq => hge (Nat.le_of_eq heq.symm)
    simp [hge, hne]

/-- Witness of C3: with the checks `[A, B, C]`, after only the event `A` has
been fed to a fresh checker, `FinalCheck` reports 1/3 and resets the cursor. -/
theorem ordered_final_check_witness :
    ((((NewOrderedEventChecker [checkA, checkB, checkC]).NextEventCheck
        SampleEvent.A none).checker.FinalCheck none).err = none ↔
      ((NewOrderedEventChecker [checkA, checkB, checkC]).NextEventCheck
        SampleEvent.A none).checker.idx = 3) ∧
    (((NewOrderedEventChecker [checkA, checkB, checkC]).NextEventCheck
        SampleEvent.A none).checker.FinalCheck none).err
      = some (Errorf "OrderedEventChecker: only %d/%d matched" [1, 3]) ∧
    (((NewOrderedEventChecker [checkA, checkB, checkC]).NextEventCheck
        SampleEvent.A none).checker.FinalCheck none).checker.idx = 0 :=
  ⟨(ordered_final_check ((NewOrderedEventChecker [checkA, checkB, checkC]).NextEventCheck
        SampleEvent.A none).checker none).1 (by decide),
   (ordered_final_check ((NewOrderedEventChecker [checkA, checkB, checkC]).NextEventCheck
        SampleEvent.A none).checker none).2.1 (by decide),
   (ordered_final_check ((NewOrderedEventChecker [checkA, checkB, checkC]).NextEventCheck
        SampleEvent.A none).checker none).2.2.1⟩

/-! ## Lemmas: lists and loops -/

/-- Erasing the element right after `front` leaves `front ++ rest`. -/
theorem eraseIdx_length_append_cons {α : Type} (front : List α) (a : α) (rest : List α) :
    (front ++ a :: rest).eraseIdx front.length = front ++ rest := by
  induction front with
  | nil => rfl
  | cons b front ih => simp [ih]

/-- A list with an element satisfying `p` splits at the first such element. -/
theorem exists_first_split {α : Type} (p : α → Prop) (l : List α) (h : ∃ a ∈ l, p a) :
    ∃ front a rest, l = front ++ a :: rest ∧ (∀ b ∈ front, ¬ p b) ∧ p a := by
  induction l with
  | nil =>
    obtain ⟨a, ha, _⟩ := h
    cases ha
  | cons b l ih =>
    by_cases hb : p b
    · exact ⟨[], b, l, rfl, by simp, hb⟩
    · have h2 : ∃ a ∈ l, p a := by
        obtain ⟨a, ha, hpa⟩ := h
        rcases List.mem_cons.mp ha with rfl | hmem
        · exact absurd hpa hb
        · exact ⟨a, hmem, hpa⟩
      obtain ⟨front, a, rest, hl, hfront, ha⟩ := ih h2
      refine ⟨b :: front, a, rest, by simp [hl], ?_, ha⟩
      intro c hc
      rcases List.mem_cons.mp hc with rfl | hmem
      · exact hb
      · exact hfront c hmem

/-- The push-back loop appends the new values in order. -/
theorem pushBackAll_eq (l cs : List (EventChecker Event)) : pushBackAll l cs = l ++ cs := by
  induction cs generalizing l with
  | nil => simp [pushBackAll]
  | cons c cs ih => simp [pushBackAll, ih]

/-- The constructor of the unordered checker, in closed form. -/
theorem newUnordered_eq (checks : List (EventChecker Event)) :
    NewUnorderedEventChecker checks =
      { pendingChecks := checks, totalChecks := checks.length, allChecks := checks } := by
  simp [NewUnorderedEventChecker, pushBackAll_eq]

/-- The scan loop when the element `mid.length` places after the cursor is the
first one that accepts the event: that element is removed, and the call is done
exactly when the captured length minus one is not positive. -/
theorem scanPending_found (checker : UnorderedEventChecker Event) (event : Event)
    (pending : Int) (check : EventChecker Event) (tail : List (EventChecker Event))
    (hok : check.CheckEvent event = none) :
    ∀ (mid : List (EventChecker Event)), (∀ c ∈ mid, c.CheckEvent event ≠ none) →
    ∀ (pos : Nat) (idx : Int) (logger : Option Logger) (calls : List (EventChecker Event)),
      (checker.scanPending event pending (mid ++ check :: tail) pos idx logger calls).checker
        = { checker with pendingChecks := checker.pendingChecks.eraseIdx (pos + mid.length) } ∧
      (checker.scanPending event pending (mid ++ check :: tail) pos idx logger calls).calls
        = calls ++ mid ++ [check] ∧
      (checker.scanPending event pending (mid ++ check :: tail) pos idx logger calls).err
        = none ∧
      (checker.scanPending event pending (mid ++ check :: tail) pos idx logger calls).done
        = decide (¬ pending - 1 > 0) := by
  intro mid
  induction mid with
  | nil =>
    intro _ pos idx logger calls
    simp only [List.nil_append, UnorderedEventChecker.scanPending, hok]
    by_cases hp : pending - 1 > 0
    · simp [hp]
    · simp [hp]
  | cons m mid ih =>
    intro hmid pos idx logger calls
    have hm : m.CheckEvent event ≠ none := hmid m (List.mem_cons_self m mid)
    obtain ⟨err, herr⟩ := Option.ne_none_iff_exists'.mp hm
    have hmid2 : ∀ c ∈ mid, c.CheckEvent event ≠ none :=
      fun c hc => hmid c (List.mem_cons_of_mem m hc)
    simp only [List.cons_append, UnorderedEventChecker.scanPending, herr]
    have := ih hmid2 (pos + 1) (idx + 1)
      (logger.map fun l =>
          l.Infof "UnorderedEventChecker: checking %d/%d: failure: %s"
            [LogArg.int idx, LogArg.int pending, LogArg.error err])
      (calls ++ [m])
    simpa [Nat.add_assoc, Nat.add_comm 1] using this

/-- The scan loop when every remaining element rejects the event: the checker
is untouched and the "all checks failed" error carries the captured length. -/
theorem scanPending_none (checker : UnorderedEventChecker Event) (event : Event)
    (pending : Int) :
    ∀ (rest : List (EventChecker Event)), (∀ c ∈ rest, c.CheckEvent event ≠ none) →
    ∀ (pos : Nat) (idx : Int) (logger : Option Logger) (calls : List (EventChecker Event)),
      (checker.scanPending event pending rest pos idx logger calls).checker = checker ∧
      (checker.scanPending event pending rest pos idx logger calls).calls = calls ++ rest ∧
      (checker.scanPending event pending rest pos idx logger calls).err
        = some (Errorf "UnorderedEventChecker: all %d checks failed" [pending]) ∧
      (checker.scanPending event pending rest pos idx logger calls).done = false := by
  intro rest
  induction rest with
  | nil =>
    intro _ pos idx logger calls
    simp [UnorderedEventChecker.scanPending]
  | cons m rest ih =>
    intro hrest pos idx logger calls
    have hm : m.CheckEvent event ≠ none := hrest m (List.mem_cons_self m rest)
    obtain ⟨err, herr⟩ := Option.ne_none_iff_exists'.mp hm
    have hrest2 : ∀ c ∈ rest, c.CheckEvent event ≠ none :=
      fun c hc => hrest c (List.mem_cons_of_mem m hc)
    simp only [UnorderedEventChecker.scanPending, herr]
    have := ih hrest2 (pos + 1) (idx + 1)
      (logger.map fun l =>
          l.Infof "UnorderedEventChecker: checking %d/%d: failure: %s"
            [LogArg.int idx, LogArg.int pending, LogArg.error err])
      (calls ++ [m])
    simpa using this

/-- The scan loop never touches the master list or the total count. -/
theorem scanPending_frame (checker : UnorderedEventChecker Event) (event : Event)
    (pending : Int) :
    ∀ (rest : List (EventChecker Event)) (pos : Nat) (idx : Int) (logger : Option Logger)
      (calls : List (EventChecker Event)),
      (checker.scanPending event pending rest pos idx logger calls).checker.allChecks
        = checker.allChecks ∧
      (checker.scanPending event pending rest pos idx logger calls).checker.totalChecks
        = checker.totalChecks := by
  intro rest
  induction rest with
  | nil =>
    intro pos idx logger calls
    simp [UnorderedEventChecker.scanPending]
  | cons m rest ih =>
    intro pos idx logger calls
    cases hm : m.CheckEvent event with
    | none =>
      simp only [UnorderedEventChecker.scanPending, hm]
      split <;> simp
    | some err =>
      simp only [UnorderedEventChecker.scanPending, hm]
      exact ih _ _ _ _

/-- `NextEventCheck` on a non-empty pending list is the scan loop started at
the front. -/
theorem unordered_next_eq_scan (checker : UnorderedEventChecker Event) (event : Event)
    (logger : Option Logger) (hne : checker.pendingChecks ≠ []) :
    checker.NextEventCheck event logger =
      checker.scanPending event checker.pendingChecks.length checker.pendingChecks 0 1
        (logger.map fun l =>
          l.Infof "UnorderedEventChecker: %d/%d matched"
            [LogArg.int ((checker.totalChecks : Int) - (checker.pendingChecks.length : Int)),
             LogArg.int checker.totalChecks]) [] := by
  have hlen : ¬ ((checker.pendingChecks.length : Int) = 0) := by
    intro h0
    exact hne (List.length_eq_zero.mp (by exact_mod_cast h0))
  unfold UnorderedEventChecker.NextEventCheck
  simp only [hlen, if_false]

/-- `NextEventCheck` never touches the master list or the total count. -/
theorem unordered_next_frame (checker : UnorderedEventChecker Event) (event : Event)
    (logger : Option Logger) :
    (checker.NextEventCheck event logger).checker.allChecks = checker.allChecks ∧
    (checker.NextEventCheck event logger).checker.totalChecks = checker.totalChecks := by
  by_cases hne : checker.pendingChecks = []
  · unfold UnorderedEventChecker.NextEventCheck
    simp [hne]
  · rw [unordered_next_eq_scan checker event logger hne]
    exact scanPending_frame checker event _ _ _ _ _ _

/-- `NextEventCheck` of the unordered checker when the pending list splits at
its first accepting element. -/
theorem unordered_next_found (checker : UnorderedEventChecker Event) (event : Event)
    (logger : Option Logger) (front : List (EventChecker Event))
    (check : EventChecker Event) (rest : List (EventChecker Event))
    (hsplit : checker.pendingChecks = front ++ check :: rest)
    (hfront : ∀ c ∈ front, c.CheckEvent event ≠ none)
    (hok : check.CheckEvent event = none) :
    (checker.NextEventCheck event logger).checker
      = { checker with pendingChecks := front ++ rest } ∧
    (checker.NextEventCheck event logger).calls = front ++ [check] ∧
    (checker.NextEventCheck event logger).err = none ∧
    (checker.NextEventCheck event logger).done = (front ++ rest).isEmpty := by
  have hne : checker.pendingChecks ≠ [] := by
    rw [hsplit]
    simp
  have hscan := scanPending_found checker event checker.pendingChecks.length check rest hok
    front hfront 0 1
    (logger.map fun l =>
      l.Infof "UnorderedEventChecker: %d/%d matched"
        [LogArg.int ((checker.totalChecks : Int) - (checker.pendingChecks.length : Int)),
         LogArg.int checker.totalChecks]) []
  rw [← hsplit, ← unordered_next_eq_scan checker event logger hne] at hscan
  obtain ⟨hchk, hcalls, herr, hdone⟩ := hscan
  refine ⟨?_, by simpa using hcalls, herr, ?_⟩
  · rw [hchk, Nat.zero_add, hsplit, eraseIdx_length_append_cons]
  · rw [hdone, hsplit]
    cases hfr : front ++ rest with
    | nil =>
      have h1 := congrArg List.length hfr
      simp at h1
      simp [h1.1, h1.2]
    | cons a l =>
      have h1 := congrArg List.length hfr
      simp at h1
      simp
      omega

/-- `NextEventCheck` of the unordered checker when the pending list is not
empty and all of it rejects the event. -/
theorem unordered_next_rejected (checker : UnorderedEventChecker Event) (event : Event)
    (logger : Option Logger) (hne : checker.pendingChecks ≠ [])
    (hrej : ∀ c ∈ checker.pendingChecks, c.CheckEvent event ≠ none) :
    (checker.NextEventCheck event logger).checker = checker ∧
    (checker.NextEventCheck event logger).calls = checker.pendingChecks ∧
    (checker.NextEventCheck event logger).err =
      some (Errorf "UnorderedEventChecker: all %d checks failed"
        [(checker.pendingChecks.length : Int)]) ∧
    (checker.NextEventCheck event logger).done = false := by
  have hscan := scanPending_none checker event checker.pendingChecks.length
    checker.pendingChecks hrej 0 1
    (logger.map fun l =>
      l.Infof "UnorderedEventChecker: %d/%d matched"
        [LogArg.int ((checker.totalChecks : Int) - (checker.pendingChecks.length : Int)),
         LogArg.int checker.totalChecks]) []
  rw [← unordered_next_eq_scan checker event logger hne] at hscan
  simpa using hscan

/-! ## Theorems: UnorderedEventChecker, one step -/

/-- C4. `UnorderedEventChecker.NextEventCheck`, match case: when some pending
check accepts the event, the pending list splits as `front ++ check :: rest`
where `check` is the first element that accepts the event; the call leaves
`front ++ rest` pending (one element removed, order kept), leaves `all` and the
total unchanged, consults exactly `front` and `check`, returns a nil error, and
returns `done = true` exactly when pending is now empty. -/
theorem unordered_next_match (checker : UnorderedEventChecker Event) (event : Event)
    (logger : Option Logger)
    (h : ∃ c ∈ checker.pendingChecks, c.CheckEvent event = none) :
    ∃ (front : List (EventChecker Event)) (check : EventChecker Event)
      (rest : List (EventChecker Event)),
      checker.pendingChecks = front ++ check :: rest ∧
      (∀ c ∈ front, c.CheckEvent event ≠ none) ∧
      check.CheckEvent event = none ∧
      (checker.NextEventCheck event logger).checker.pendingChecks = front ++ rest ∧
      (checker.NextEventCheck event logger).checker.allChecks = checker.allChecks ∧
      (checker.NextEventCheck event logger).checker.totalChecks = checker.totalChecks ∧
      (checker.NextEventCheck event logger).calls = front ++ [check] ∧
      (checker.NextEventCheck event logger).err = none ∧
      ((checker.NextEventCheck event logger).checker.pendingChecks = [] →
        (checker.NextEventCheck event logger).done = true) ∧
      ((checker.NextEventCheck event logger).checker.pendingChecks ≠ [] →
        (checker.NextEventCheck event logger).done = false) := by
  obtain ⟨front, check, rest, hsplit, hfront, hok⟩ :=
    exists_first_split (fun c => c.CheckEvent event = none) checker.pendingChecks h
  obtain ⟨hchk, hcalls, herr, hdone⟩ :=
    unordered_next_found checker event logger front check rest hsplit hfront hok
  have hpend : (checker.NextEventCheck event logger).checker.pendingChecks = front ++ rest := by
    rw [hchk]
  refine ⟨front, check, rest, hsplit, hfront, hok, hpend, ?_, ?_, hcalls, herr, ?_, ?_⟩
  · rw [hchk]
  · rw [hchk]
  · intro hnil
    rw [hdone, ← hpend, hnil]
    rfl
  · intro hnn
    rw [hdone, ← hpend]
    cases hp : (checker.NextEventCheck event logger).checker.pendingChecks with
    | nil => exact absurd hp hnn
    | cons a l => rfl

/-- Witness of C4: with `[A, B, C]` pending, the event `B` removes the middle
check and leaves `[A, C]` pending. -/
theorem unordered_next_match_witness :
    ∃ (front : List (EventChecker SampleEvent)) (check : EventChecker SampleEvent)
      (rest : List (EventChecker SampleEvent)),
      [checkA, checkB, checkC] = front ++ check :: rest ∧
      (∀ c ∈ front, c.CheckEvent SampleEvent.B ≠ none) ∧
      check.CheckEvent SampleEvent.B = none ∧
      ((NewUnorderedEventChecker [checkA, checkB, checkC]).NextEventCheck
        SampleEvent.B none).checker.pendingChecks = front ++ rest := by
  obtain ⟨front, check, rest, h1, h2, h3, h4, _⟩ :=
    unordered_next_match (NewUnorderedEventChecker [checkA, checkB, checkC]) SampleEvent.B none
      ⟨checkB, by simp [newUnordered_eq], rfl⟩
  exact ⟨front, check, rest, by simpa [newUnordered_eq] using h1, h2, h3, h4⟩

/-- C5. `UnorderedEventChecker.NextEventCheck`, no-match case: with `N > 0`
pending checks that all reject the event, the call returns `false` and the
error "all N checks failed", consults every pending check, and leaves the
checker (pending, all, total) unchanged; a following event accepted by some
pending check then returns a nil error and removes exactly that one check,
leaving the others pending. -/
theorem unordered_next_no_match (checker : UnorderedEventChecker Event) (event : Event)
    (logger : Option Logger) (hne : checker.pendingChecks ≠ [])
    (hrej : ∀ c ∈ checker.pendingChecks, c.CheckEvent event ≠ none) :
    (checker.NextEventCheck event logger).done = false ∧
    (checker.NextEventCheck event logger).err =
      some (Errorf "UnorderedEventChecker: all %d checks failed"
        [(checker.pendingChecks.length : Int)]) ∧
    (checker.NextEventCheck event logger).checker = checker ∧
    (checker.NextEventCheck event logger).calls = checker.pendingChecks ∧
    (∀ (event2 : Event) (logger2 : Option Logger),
      (∃ c ∈ checker.pendingChecks, c.CheckEvent event2 = none) →
      (((checker.NextEventCheck event logger).checker.NextEventCheck event2 logger2).err
          = none ∧
       ∃ (front : List (EventChecker Event)) (check : EventChecker Event)
         (rest : List (EventChecker Event)),
         checker.pendingChecks = front ++ check :: rest ∧
         check.CheckEvent event2 = none ∧
         ((checker.NextEventCheck event logger).checker.NextEventCheck
            event2 logger2).checker.pendingChecks = front ++ rest)) := by
  obtain ⟨hchk, hcalls, herr, hdone⟩ := unordered_next_rejected checker event logger hne hrej
  refine ⟨hdone, herr, hchk, hcalls, ?_⟩
  intro event2 logger2 h2
  rw [hchk]
  obtain ⟨front, check, rest, hsplit, hfront, hok⟩ :=
    exists_first_split (fun c => c.CheckEvent event2 = none) checker.pendingChecks h2
  obtain ⟨hchk2, _, herr2, _⟩ :=
    unordered_next_found checker event2 logger2 front check rest hsplit hfront hok
  exact ⟨herr2, front, check, rest, hsplit, hok, by rw [hchk2]⟩

/-- Witness of C5: with `[A, B]` pending, the foreign event `x` is rejected
with "all 2 checks failed" and the checker is unchanged. -/
theorem unordered_next_no_match_witness :
    ((NewUnorderedEventChecker [checkA, checkB]).NextEventCheck SampleEvent.x none).err
      = some (Errorf "UnorderedEventChecker: all %d checks failed" [2]) ∧
    ((NewUnorderedEventChecker [checkA, checkB]).NextEventCheck SampleEvent.x none).checker
      = NewUnorderedEventChecker [checkA, checkB] :=
  ⟨(unordered_next_no_match (NewUnorderedEventChecker [checkA, checkB]) SampleEvent.x none
      (by simp [newUnordered_eq])
      (by simp [newUnordered_eq, checkA, checkB, checkFor])).2.1,
   (unordered_next_no_match (NewUnorderedEventChecker [checkA, checkB]) SampleEvent.x none
      (by simp [newUnordered_eq])
      (by simp [newUnordered_eq, checkA, checkB, checkFor])).2.2.1⟩

/-! ## Lemmas: appending checks and the invariants of reachable states -/

/-- `AddChecks` of the ordered checker, in closed form. -/
theorem ordered_addChecks_eq (checker : OrderedEventChecker Event)
    (cs : List (EventChecker Event)) :
    checker.AddChecks cs = { checks := checker.checks ++ cs, idx := checker.idx } := by
  induction cs generalizing checker with
  | nil => simp [OrderedEventChecker.AddChecks]
  | cons c cs ih => simp [OrderedEventChecker.AddChecks, ih]

/-- `AddChecks` of the unordered checker, in closed form. -/
theorem unordered_addChecks_eq (checker : UnorderedEventChecker Event)
    (cs : List (EventChecker Event)) :
    checker.AddChecks cs =
      { pendingChecks := checker.pendingChecks ++ cs,
        totalChecks := checker.totalChecks + cs.length,
        allChecks := checker.allChecks ++ cs } := by
  induction cs generalizing checker with
  | nil => simp [UnorderedEventChecker.AddChecks]
  | cons c cs ih =>
    simp [UnorderedEventChecker.AddChecks, ih]
    omega

/-- The checker that `FinalCheck` of the ordered checker leaves behind. -/
theorem ordered_final_checker (checker : OrderedEventChecker Event)
    (logger : Option Logger) :
    (checker.FinalCheck logger).checker = { checks := checker.checks, idx := 0 } := by
  unfold OrderedEventChecker.FinalCheck
  by_cases hge : checker.idx ≥ checker.checks.length
  · simp [hge]
  · simp [hge]

/-- The checker that `FinalCheck` of the unordered checker leaves behind. -/
theorem unordered_final_checker (checker : UnorderedEventChecker Event)
    (logger : Option Logger) :
    (checker.FinalCheck logger).checker =
      { pendingChecks := checker.allChecks, totalChecks := checker.allChecks.length,
        allChecks := checker.allChecks } := by
  unfold UnorderedEventChecker.FinalCheck
  by_cases h0 : ((checker.pendingChecks.length : Int) = 0)
  · simp [h0]
  · simp [h0]

/-- `NextEventCheck` of the ordered checker keeps the cursor in range. -/
theorem ordered_next_wf (checker : OrderedEventChecker Event) (event : Event)
    (logger : Option Logger) (hwf : checker.WF) :
    (checker.NextEventCheck event logger).checker.WF := by
  unfold OrderedEventChecker.WF at *
  unfold OrderedEventChecker.NextEventCheck
  by_cases hge : checker.idx ≥ checker.checks.length
  · rw [dif_pos hge]
    exact hwf
  · rw [dif_neg hge]
    have hlt : checker.idx < checker.checks.length := Nat.lt_of_not_ge hge
    cases hc : (checker.checks.get ⟨checker.idx, hlt⟩).CheckEvent event with
    | some err =>
      simp only [hc]
      exact hwf
    | none =>
      simp only [hc]
      split
      · exact Nat.succ_le_of_lt hlt
      · exact Nat.succ_le_of_lt hlt

/-- Every reachable state of the ordered checker has its cursor in range. -/
theorem ordered_reachable_wf (checker : OrderedEventChecker Event)
    (hr : checker.Reachable) : checker.WF := by
  induction hr with
  | new checks => exact Nat.zero_le _
  | nextEvent checker event logger _ ih => exact ordered_next_wf checker event logger ih
  | nextResponse Response EventFromResponse checker response logger _ ih =>
    unfold OrderedEventChecker.NextResponseCheck
    cases EventFromResponse response with
    | error err => exact ih
    | ok event => exact ordered_next_wf checker event logger ih
  | addChecks checker cs _ ih =>
    unfold OrderedEventChecker.WF at *
    rw [ordered_addChecks_eq]
    simp only [List.length_append]
    omega
  | finalCheck checker logger _ ih =>
    unfold OrderedEventChecker.WF
    rw [ordered_final_checker]
    exact Nat.zero_le _

/-- In every reachable state of the unordered checker the total count is the
length of the master list. -/
theorem unordered_reachable_total (checker : UnorderedEventChecker Event)
    (hr : checker.Reachable) : checker.totalChecks = checker.allChecks.length := by
  induction hr with
  | new checks => simp [newUnordered_eq]
  | nextEvent checker event logger _ ih =>
    rw [(unordered_next_frame checker event logger).1,
      (unordered_next_frame checker event logger).2]
    exact ih
  | nextResponse Response EventFromResponse checker response logger _ ih =>
    unfold UnorderedEventChecker.NextResponseCheck
    cases EventFromResponse response with
    | error err => exact ih
    | ok event =>
      show (checker.NextEventCheck event logger).checker.totalChecks
        = (checker.NextEventCheck event logger).checker.allChecks.length
      rw [(unordered_next_frame checker event logger).1,
        (unordered_next_frame checker event logger).2]
      exact ih
  | addChecks checker cs _ ih =>
    rw [unordered_addChecks_eq]
    simp [ih]
  | finalCheck checker logger _ ih =>
    rw [unordered_final_checker]

/-! ## Theorems: FinalCheck of the unordered checker -/

/-- C6. `UnorderedEventChecker.FinalCheck` on a reachable state: the returned
error is nil if and only if pending was empty at the time of the call;
otherwise it is the error "pending/total checks remain" carrying `|pending|`
and `|all|` as they were at the call; in both cases pending afterwards equals
`all` (same elements, same order), `all` is unchanged, the total count equals
`|all|` and the logger is untouched. -/
theorem unordered_final_check (checker : UnorderedEventChecker Event)
    (logger : Option Logger) (hr : checker.Reachable) :
    ((checker.FinalCheck logger).err = none ↔ checker.pendingChecks = []) ∧
    (checker.pendingChecks ≠ [] →
      (checker.FinalCheck logger).err =
        some (Errorf "UnorderedEventChecker: %d/%d checks remain"
          [(checker.pendingChecks.length : Int), (checker.allChecks.length : Int)])) ∧
    (checker.FinalCheck logger).checker.pendingChecks = checker.allChecks ∧
    (checker.FinalCheck logger).checker.allChecks = checker.allChecks ∧
    (checker.FinalCheck logger).checker.totalChecks = checker.allChecks.length ∧
    (checker.FinalCheck logger).logger = logger := by
  have htotal := unordered_reachable_total checker hr
  unfold UnorderedEventChecker.FinalCheck
  by_cases hnil : checker.pendingChecks = []
  · simp [hnil]
  · have hlen : ¬ ((checker.pendingChecks.length : Int) = 0) := by
      intro h0
      exact hnil (List.length_eq_zero.mp (by exact_mod_cast h0))
    simp [hnil, hlen, htotal]

/-- Witness of C6: with the checks `[A, B, C]`, after only the event `B` has
been fed to a fresh checker, `FinalCheck` reports 2/3 remaining and restores
the pending list. -/
theorem unordered_final_check_witness :
    (((NewUnorderedEventChecker [checkA, checkB, checkC]).NextEventCheck
        SampleEvent.B none).checker.FinalCheck none).err
      = some (Errorf "UnorderedEventChecker: %d/%d checks remain" [2, 3]) ∧
    (((NewUnorderedEventChecker [checkA, checkB, checkC]).NextEventCheck
        SampleEvent.B none).checker.FinalCheck none).checker.pendingChecks
      = [checkA, checkB, checkC] :=
  ⟨(unordered_final_check ((NewUnorderedEventChecker [checkA, checkB, checkC]).NextEventCheck
        SampleEvent.B none).checker none
      (UnorderedEventChecker.Reachable.nextEvent _ _ _
        (UnorderedEventChecker.Reachable.new _))).2.1 (by simp [newUnordered_eq,
          UnorderedEventChecker.NextEventCheck, UnorderedEventChecker.scanPending,
          checkA, checkB, checkFor]),
   (unordered_final_check ((NewUnorderedEventChecker [checkA, checkB, checkC]).NextEventCheck
        SampleEvent.B none).checker none
      (UnorderedEventChecker.Reachable.nextEvent _ _ _
        (UnorderedEventChecker.Reachable.new _))).2.2.1⟩

/-! ## Lemmas: completion -/

/-- Past completion `NextEventCheck` of the ordered checker is a no-op that
returns `(true, nil)`. -/
theorem ordered_next_past_end (checker : OrderedEventChecker Event) (event : Event)
    (logger : Option Logger) (hge : checker.idx ≥ checker.checks.length) :
    checker.NextEventCheck event logger =
      { checker := checker, logger := logger, calls := [], done := true, err := none } := by
  unfold OrderedEventChecker.NextEventCheck
  rw [dif_pos hge]

/-- The ordered checker returns `done = true` exactly when the cursor it
leaves behind is at or past the end of the checks. -/
theorem ordered_done_iff (checker : OrderedEventChecker Event) (event : Event)
    (logger : Option Logger) :
    (checker.NextEventCheck event logger).done = true ↔
      (checker.NextEventCheck event logger).checker.idx ≥
        (checker.NextEventCheck event logger).checker.checks.length := by
  by_cases hge : checker.idx ≥ checker.checks.length
  · rw [ordered_next_past_end checker event logger hge]
    simpa using hge
  · have hlt : checker.idx < checker.checks.length := Nat.lt_of_not_ge hge
    unfold OrderedEventChecker.NextEventCheck
    rw [dif_neg hge]
    cases hc : (checker.checks.get ⟨checker.idx, hlt⟩).CheckEvent event with
    | some err =>
      simp only [hc]
      simpa using hlt
    | none =>
      simp only [hc]
      by_cases hlen : checker.idx + 1 = checker.checks.length
      · simp [hlen]
      · simp [hlen]
        omega

/-- With nothing pending `NextEventCheck` of the unordered checker is a no-op
that returns `(true, nil)`. -/
theorem unordered_next_empty (checker : UnorderedEventChecker Event) (event : Event)
    (logger : Option Logger) (hnil : checker.pendingChecks = []) :
    checker.NextEventCheck event logger =
      { checker := checker, logger := logger, calls := [], done := true, err := none } := by
  unfold UnorderedEventChecker.NextEventCheck
  simp [hnil]

/-- The unordered checker returns `done = true` exactly when it leaves nothing
pending. -/
theorem unordered_done_iff (checker : UnorderedEventChecker Event) (event : Event)
    (logger : Option Logger) :
    (checker.NextEventCheck event logger).done = true ↔
      (checker.NextEventCheck event logger).checker.pendingChecks = [] := by
  by_cases hnil : checker.pendingChecks = []
  · rw [unordered_next_empty checker event logger hnil]
    simpa using hnil
  · by_cases h : ∃ c ∈ checker.pendingChecks, c.CheckEvent event = none
    · obtain ⟨front, check, rest, hsplit, hfront, hok⟩ :=
        exists_first_split (fun c => c.CheckEvent event = none) checker.pendingChecks h
      obtain ⟨hchk, _, _, hdone⟩ :=
        unordered_next_found checker event logger front check rest hsplit hfront hok
      rw [hdone, hchk]
      exact List.isEmpty_iff
    · have hrej : ∀ c ∈ checker.pendingChecks, c.CheckEvent event ≠ none :=
        fun c hc hcn => h ⟨c, hc, hcn⟩
      obtain ⟨hchk, _, _, hdone⟩ := unordered_next_rejected checker event logger hnil hrej
      rw [hdone, hchk]
      simpa using hnil

/-- Feeding any stream to an ordered checker that is past completion changes
nothing and returns `(true, nil)` at every step. -/
theorem ordered_feed_past_end (checker : OrderedEventChecker Event)
    (hge : checker.idx ≥ checker.checks.length) (logger : Option Logger)
    (events : List Event) :
    checker.feed logger events =
      { checker := checker, logger := logger,
        results := events.map fun _ => (true, none) } := by
  induction events with
  | nil => rfl
  | cons event events ih =>
    simp only [OrderedEventChecker.feed, ordered_next_past_end checker event logger hge, ih,
      List.map_cons]

/-- Feeding any stream to an unordered checker with nothing pending changes
nothing and returns `(true, nil)` at every step. -/
theorem unordered_feed_empty (checker : UnorderedEventChecker Event)
    (hnil : checker.pendingChecks = []) (logger : Option Logger) (events : List Event) :
    checker.feed logger events =
      { checker := checker, logger := logger,
        results := events.map fun _ => (true, none) } := by
  induction events with
  | nil => rfl
  | cons event events ih =>
    simp only [UnorderedEventChecker.feed, unordered_next_empty checker event logger hnil, ih,
      List.map_cons]

/-! ## Theorems: idempotence, the response adapter, forwarding -/

/-- C7. Idempotence past completion, for the ordered and the unordered
checker: once a `NextEventCheck` call has returned `done = true`, a further
call with any event and any logger returns `(true, nil)`, makes no `CheckEvent`
call and leaves the checker and the logger as they were, and so does every
call of any further stream; the same holds for checkers built from an empty
list of checks. -/
theorem next_idempotent_past_completion :
    (∀ (checker : OrderedEventChecker Event) (event : Event) (logger : Option Logger),
      (checker.NextEventCheck event logger).done = true →
      (∀ (event2 : Event) (logger2 : Option Logger),
        (checker.NextEventCheck event logger).checker.NextEventCheck event2 logger2 =
          { checker := (checker.NextEventCheck event logger).checker, logger := logger2,
            calls := [], done := true, err := none }) ∧
      (∀ (events : List Event) (logger2 : Option Logger),
        (checker.NextEventCheck event logger).checker.feed logger2 events =
          { checker := (checker.NextEventCheck event logger).checker, logger := logger2,
            results := events.map fun _ => (true, none) })) ∧
    (∀ (checker : UnorderedEventChecker Event) (event : Event) (logger : Option Logger),
      (checker.NextEventCheck event logger).done = true →
      (∀ (event2 : Event) (logger2 : Option Logger),
        (checker.NextEventCheck event logger).checker.NextEventCheck event2 logger2 =
          { checker := (checker.NextEventCheck event logger).checker, logger := logger2,
            calls := [], done := true, err := none }) ∧
      (∀ (events : List Event) (logger2 : Option Logger),
        (checker.NextEventCheck event logger).checker.feed logger2 events =
          { checker := (checker.NextEventCheck event logger).checker, logger := logger2,
            results := events.map fun _ => (true, none) })) ∧
    (∀ (event : Event) (logger : Option Logger),
      (NewOrderedEventChecker ([] : List (EventChecker Event))).NextEventCheck event logger =
        { checker := NewOrderedEventChecker [], logger := logger, calls := [], done := true,
          err := none }) ∧
    (∀ (event : Event) (logger : Option Logger),
      (NewUnorderedEventChecker ([] : List (EventChecker Event))).NextEventCheck event logger =
        { checker := NewUnorderedEventChecker [], logger := logger, calls := [], done := true,
          err := none }) := by
  refine ⟨?_, ?_, ?_, ?_⟩
  · intro checker event logger hdone
    have hge := (ordered_done_iff checker event logger).mp hdone
    exact ⟨fun event2 logger2 => ordered_next_past_end _ event2 logger2 hge,
      fun events logger2 => ordered_feed_past_end _ hge logger2 events⟩
  · intro checker event logger hdone
    have hnil := (unordered_done_iff checker event logger).mp hdone
    exact ⟨fun event2 logger2 => unordered_next_empty _ event2 logger2 hnil,
      fun events logger2 => unordered_feed_empty _ hnil logger2 events⟩
  · intro event logger
    exact ordered_next_past_end _ event logger (Nat.le_refl 0)
  · intro event logger
    exact unordered_next_empty _ event logger (by simp [newUnordered_eq])

/-- Witness of C7: the ordered checker on `[A]` is done after the event `A`,
and the unordered checker on `[A]` likewise; a further event `x` returns
`(true, nil)`. -/
theorem next_idempotent_past_completion_witness :
    ((((NewOrderedEventChecker [checkA]).NextEventCheck SampleEvent.A none).checker.NextEventCheck
        SampleEvent.x none).done = true) ∧
    ((((NewUnorderedEventChecker [checkA]).NextEventCheck
        SampleEvent.A none).checker.NextEventCheck SampleEvent.x none).err = none) :=
  ⟨by
      rw [((next_idempotent_past_completion.1 (NewOrderedEventChecker [checkA])
        SampleEvent.A none rfl).1 SampleEvent.x none)],
   by
      rw [((next_idempotent_past_completion.2.1 (NewUnorderedEventChecker [checkA])
        SampleEvent.A none rfl).1 SampleEvent.x none)]⟩

/-- C8. `NextResponseCheck` of the ordered, the unordered and the function
checker, for any adapter `EventFromResponse`: when the adapter fails with
`err`, the call returns `(false, err)` with that same error, makes no
`CheckEvent` call, and leaves the checker (the environment of the callables,
for the function checker) and the logger as they were; when the adapter
returns the event `e`, the call is exactly `NextEventCheck(e, logger)`. -/
theorem next_response_check (EventFromResponse : Response → Except Error Event)
    (response : Response) (logger : Option Logger) :
    (∀ (err : Error), EventFromResponse response = Except.error err →
      (∀ (checker : OrderedEventChecker Event),
        checker.NextResponseCheck EventFromResponse response logger =
          { checker := checker, logger := logger, calls := [], done := false,
            err := some err }) ∧
      (∀ (checker : UnorderedEventChecker Event),
        checker.NextResponseCheck EventFromResponse response logger =
          { checker := checker, logger := logger, calls := [], done := false,
            err := some err }) ∧
      (∀ (checker : FnEventChecker σ Event) (env : σ),
        checker.NextResponseCheck EventFromResponse env response logger =
          { env := env, logger := logger, done := false, err := some err })) ∧
    (∀ (event : Event), EventFromResponse response = Except.ok event →
      (∀ (checker : OrderedEventChecker Event),
        checker.NextResponseCheck EventFromResponse response logger =
          checker.NextEventCheck event logger) ∧
      (∀ (checker : UnorderedEventChecker Event),
        checker.NextResponseCheck EventFromResponse response logger =
          checker.NextEventCheck event logger) ∧
      (∀ (checker : FnEventChecker σ Event) (env : σ),
        checker.NextResponseCheck EventFromResponse env response logger =
          checker.NextEventCheck env event logger)) := by
  constructor
  · intro err herr
    refine ⟨?_, ?_, ?_⟩
    · intro checker
      unfold OrderedEventChecker.NextResponseCheck
      rw [herr]
    · intro checker
      unfold UnorderedEventChecker.NextResponseCheck
      rw [herr]
    · intro checker env
      unfold FnEventChecker.NextResponseCheck
      rw [herr]
  · intro event hev
    refine ⟨?_, ?_, ?_⟩
    · intro checker
      unfold OrderedEventChecker.NextResponseCheck
      rw [hev]
    · intro checker
      unfold UnorderedEventChecker.NextResponseCheck
      rw [hev]
    · intro checker env
      unfold FnEventChecker.NextResponseCheck
      rw [hev]

/-- Witness of C8: on a control frame the sample adapter fails, and the
counting function checker is returned with its count untouched; on a frame
carrying `A` the ordered checker on `[A, B]` steps as `NextEventCheck` does. -/
theorem next_response_check_witness :
    (countingFnChecker.NextResponseCheck sampleEventFromResponse 0 none none =
      { env := 0, logger := none, done := false,
        err := some { format := "unknown event type", args := [] } }) ∧
    ((NewOrderedEventChecker [checkA, checkB]).NextResponseCheck sampleEventFromResponse
        (some SampleEvent.A) none =
      (NewOrderedEventChecker [checkA, checkB]).NextEventCheck SampleEvent.A none) :=
  ⟨((next_response_check sampleEventFromResponse none none).1
      { format := "unknown event type", args := [] } rfl).2.2 countingFnChecker 0,
   ((next_response_check (σ := Nat) sampleEventFromResponse (some SampleEvent.A) none).2
      SampleEvent.A rfl).1 (NewOrderedEventChecker [checkA, checkB])⟩

/-- C9. `FnEventChecker` forwarding: for every step callable `f` and finalize
callable `g`, in every environment, `NextEventCheck(e, l)` is exactly
`f(e, l)` and `FinalCheck(l)` is exactly `g(l)`: the returned values, the
logger and the environment are those the callable produced. In particular a
`(true, non-nil)` result of the step callable passes through. -/
theorem fn_forwarding :
    (∀ (f : σ → Event → Option Logger → FnStepResult σ)
       (g : σ → Option Logger → FnFinalResult σ) (env : σ) (event : Event)
       (logger : Option Logger),
      ({ NextCheckFn := f, FinalCheckFn := g } : FnEventChecker σ Event).NextEventCheck
          env event logger = f env event logger ∧
      ({ NextCheckFn := f, FinalCheckFn := g } : FnEventChecker σ Event).FinalCheck
          env logger = g env logger) ∧
    ((countingFnChecker.NextEventCheck 2 SampleEvent.A none).done = true ∧
     (countingFnChecker.NextEventCheck 2 SampleEvent.A none).err = some mismatch) := by
  constructor
  · intro f g env event logger
    constructor
    · unfold FnEventChecker.NextEventCheck
      rfl
    · unfold FnEventChecker.FinalCheck
      rfl
  · constructor
    · rfl
    · rfl

/-! ## Lemmas: matching a stream in order -/

/-- Positions that are all positive are the successors of other positions. -/
theorem exists_map_succ (ps : List Nat) (hpos : ∀ p ∈ ps, 0 < p) :
    ∃ qs : List Nat, ps = qs.map fun q => q + 1 := by
  induction ps with
  | nil => exact ⟨[], rfl⟩
  | cons p ps ih =>
    obtain ⟨qs, hqs⟩ := ih fun q hq => hpos q (List.mem_cons_of_mem p hq)
    have hp : 0 < p := hpos p (List.mem_cons_self p ps)
    refine ⟨(p - 1) :: qs, ?_⟩
    simp only [List.map_cons, ← hqs]
    congr 1
    omega

/-- Putting an event in front of the stream shifts every position by one. -/
theorem acceptsAt_cons_succ (event : Event) (events : List Event)
    (check : EventChecker Event) (pos : Nat) :
    acceptsAt (event :: events) check (pos + 1) ↔ acceptsAt events check pos := by
  simp [acceptsAt]

/-- An in-order match of the tail of a stream is one of the stream, shifted. -/
theorem forall₂_acceptsAt_shift (event : Event) (events : List Event)
    (checks : List (EventChecker Event)) (qs : List Nat) :
    List.Forall₂ (acceptsAt (event :: events)) checks (qs.map fun q => q + 1) ↔
      List.Forall₂ (acceptsAt events) checks qs := by
  rw [List.forall₂_map_right_iff]
  constructor
  · intro h
    exact h.imp fun {c q} hcq => (acceptsAt_cons_succ event events c q).mp hcq
  · intro h
    exact h.imp fun {c q} hcq => (acceptsAt_cons_succ event events c q).mpr hcq

/-- Shifting positions by one keeps them increasing, both ways. -/
theorem pairwise_lt_shift (qs : List Nat) :
    (qs.map fun q => q + 1).Pairwise (fun i j => i < j) ↔ qs.Pairwise (fun i j => i < j) := by
  rw [List.pairwise_map]
  simp

/-- When the earliest-match scan succeeds there are increasing positions at
which the checks accept. -/
theorem greedyMatch_sound (events : List Event) :
    ∀ (checks : List (EventChecker Event)),
      greedyMatch checks events = true → MatchesInOrder checks events := by
  induction events with
  | nil =>
    intro checks h
    cases checks with
    | nil => exact ⟨[], List.Pairwise.nil, List.Forall₂.nil⟩
    | cons c cs => simp [greedyMatch] at h
  | cons e es ih =>
    intro checks h
    cases checks with
    | nil => exact ⟨[], List.Pairwise.nil, List.Forall₂.nil⟩
    | cons c cs =>
      cases hc : c.CheckEvent e with
      | none =>
        simp only [greedyMatch, hc] at h
        obtain ⟨qs, hinc, hacc⟩ := ih cs h
        refine ⟨0 :: qs.map (fun q => q + 1), ?_, ?_⟩
        · rw [List.pairwise_cons]
          refine ⟨?_, (pairwise_lt_shift qs).mpr hinc⟩
          intro p hp
          obtain ⟨q, _, rfl⟩ := List.mem_map.mp hp
          exact Nat.succ_pos q
        · exact List.Forall₂.cons ⟨e, by simp, hc⟩
            ((forall₂_acceptsAt_shift e es cs qs).mpr hacc)
      | some err =>
        simp only [greedyMatch, hc] at h
        obtain ⟨qs, hinc, hacc⟩ := ih (c :: cs) h
        exact ⟨qs.map (fun q => q + 1), (pairwise_lt_shift qs).mpr hinc,
          (forall₂_acceptsAt_shift e es (c :: cs) qs).mpr hacc⟩

/-- When there are increasing positions at which the checks accept, the
earliest-match scan succeeds. -/
theorem greedyMatch_complete (events : List Event) :
    ∀ (checks : List (EventChecker Event)) (positions : List Nat),
      positions.Pairwise (fun i j => i < j) →
      List.Forall₂ (acceptsAt events) checks positions →
      greedyMatch checks events = true := by
  induction events with
  | nil =>
    intro checks positions _ hacc
    cases hacc with
    | nil => rfl
    | cons h _ =>
      obtain ⟨ev, hev, _⟩ := h
      simp at hev
  | cons e es ih =>
    intro checks positions hinc hacc
    cases hacc with
    | nil => rfl
    | @cons c p cs ps hcp hrest =>
      rw [List.pairwise_cons] at hinc
      obtain ⟨hlt, hinc2⟩ := hinc
      cases hc : c.CheckEvent e with
      | none =>
        simp only [greedyMatch, hc]
        obtain ⟨qs, rfl⟩ := exists_map_succ ps fun q hq => Nat.lt_of_le_of_lt (Nat.zero_le p)
          (hlt q hq)
        exact ih cs qs ((pairwise_lt_shift qs).mp hinc2)
          ((forall₂_acceptsAt_shift e es cs qs).mp hrest)
      | some err =>
        simp only [greedyMatch, hc]
        have hp : 0 < p := by
          rcases Nat.eq_zero_or_pos p with h0 | hpos
          · subst h0
            obtain ⟨ev, hev, hok⟩ := hcp
            simp at hev
            subst hev
            rw [hc] at hok
            cases hok
          · exact hpos
        obtain ⟨qs, hqs⟩ := exists_map_succ (p :: ps) (by
          intro q hq
          rcases List.mem_cons.mp hq with rfl | hmem
          · exact hp
          · exact Nat.lt_trans hp (hlt q hmem))
        have hinc3 : (p :: ps).Pairwise (fun i j => i < j) :=
          List.pairwise_cons.mpr ⟨hlt, hinc2⟩
        have hacc3 : List.Forall₂ (acceptsAt (e :: es)) (c :: cs) (p :: ps) :=
          List.Forall₂.cons hcp hrest
        rw [hqs] at hinc3 hacc3
        exact ih (c :: cs) qs ((pairwise_lt_shift qs).mp hinc3)
          ((forall₂_acceptsAt_shift e es (c :: cs) qs).mp hacc3)

/-- Dropping up to a position in range leaves the element there in front. -/
theorem drop_eq_get_cons_of_lt {α : Type} (l : List α) (n : Nat) (h : n < l.length) :
    l.drop n = l.get ⟨n, h⟩ :: l.drop (n + 1) := by
  rw [List.get_eq_getElem]
  exact List.drop_eq_getElem_cons h

/-- The checker that an accepted event leaves behind in the ordered checker. -/
theorem ordered_next_checker_accept (checker : OrderedEventChecker Event) (event : Event)
    (logger : Option Logger) (h : checker.idx < checker.checks.length)
    (hok : (checker.checks.get ⟨checker.idx, h⟩).CheckEvent event = none) :
    (checker.NextEventCheck event logger).checker =
      { checks := checker.checks, idx := checker.idx + 1 } := by
  unfold OrderedEventChecker.NextEventCheck
  rw [dif_neg (Nat.not_le.mpr h)]
  simp only [hok]
  split <;> rfl

/-- The checker that a rejected event leaves behind in the ordered checker. -/
theorem ordered_next_checker_reject (checker : OrderedEventChecker Event) (event : Event)
    (logger : Option Logger) (err : Error) (h : checker.idx < checker.checks.length)
    (hrej : (checker.checks.get ⟨checker.idx, h⟩).CheckEvent event = some err) :
    (checker.NextEventCheck event logger).checker = checker := by
  unfold OrderedEventChecker.NextEventCheck
  rw [dif_neg (Nat.not_le.mpr h)]
  simp only [hrej]

/-- Feeding a stream to an ordered checker leaves the checks alone, and ends
at or past the end of the checks exactly when the earliest-match scan of the
unmatched checks over the stream succeeds. -/
theorem ordered_feed_greedy (events : List Event) :
    ∀ (checker : OrderedEventChecker Event) (logger : Option Logger),
      (checker.feed logger events).checker.checks = checker.checks ∧
      ((checker.feed logger events).checker.idx ≥ checker.checks.length ↔
        greedyMatch (checker.checks.drop checker.idx) events = true) := by
  induction events with
  | nil =>
    intro checker logger
    refine ⟨rfl, ?_⟩
    show checker.idx ≥ checker.checks.length ↔ _
    cases hd : checker.checks.drop checker.idx with
    | nil => simpa [greedyMatch] using List.drop_eq_nil_iff.mp hd
    | cons c cs =>
      have hne : ¬ checker.checks.length ≤ checker.idx := by
        intro hle
        rw [List.drop_eq_nil_of_le hle] at hd
        cases hd
      simpa [greedyMatch] using Nat.lt_of_not_ge hne
  | cons e es ih =>
    intro checker logger
    by_cases hge : checker.idx ≥ checker.checks.length
    · rw [ordered_feed_past_end checker hge logger (e :: es),
        List.drop_eq_nil_of_le hge]
      exact ⟨rfl, by simpa [greedyMatch] using hge⟩
    · have hlt : checker.idx < checker.checks.length := Nat.lt_of_not_ge hge
      have hfeed : (checker.feed logger (e :: es)).checker =
          ((checker.NextEventCheck e logger).checker.feed
            (checker.NextEventCheck e logger).logger es).checker := rfl
      rw [hfeed, drop_eq_get_cons_of_lt _ _ hlt]
      cases hc : (checker.checks.get ⟨checker.idx, hlt⟩).CheckEvent e with
      | none =>
        have hstep := ordered_next_checker_accept checker e logger hlt hc
        have h2 := ih (checker.NextEventCheck e logger).checker
          (checker.NextEventCheck e logger).logger
        rw [hstep] at h2 ⊢
        simp only [greedyMatch, hc]
        exact h2
      | some err =>
        have hstep := ordered_next_checker_reject checker e logger err hlt hc
        have h2 := ih (checker.NextEventCheck e logger).checker
          (checker.NextEventCheck e logger).logger
        rw [hstep] at h2 ⊢
        simp only [greedyMatch, hc]
        rw [drop_eq_get_cons_of_lt _ _ hlt] at h2
        exact h2

/-! ## Theorems: the verdict on a stream -/

/-- C10. Ordered stream verdict: for every list of checks and every finite
stream fed one event at a time to a freshly constructed `OrderedEventChecker`,
the following `FinalCheck` returns nil if and only if there are stream
positions `i1 < i2 < ... < in` such that the `j`-th check accepts the event at
position `ij`. On the stream `[x, A, y, B, z, C]` against the checks
`[A, B, C]` the step results are `(false, err)`, `(false, nil)`,
`(false, err)`, `(false, nil)`, `(false, err)`, `(true, nil)`, and `FinalCheck`
returns nil and leaves the cursor at 0. -/
theorem ordered_stream_verdict :
    (∀ (checks : List (EventChecker Event)) (events : List Event)
       (logger logger2 : Option Logger),
      (((NewOrderedEventChecker checks).feed logger events).checker.FinalCheck logger2).err
          = none ↔ MatchesInOrder checks events) ∧
    ((NewOrderedEventChecker [checkA, checkB, checkC]).feed none
        [SampleEvent.x, SampleEvent.A, SampleEvent.y, SampleEvent.B, SampleEvent.z,
         SampleEvent.C]).results =
      [(false, some mismatch), (false, none), (false, some mismatch), (false, none),
       (false, some mismatch), (true, none)] ∧
    (((NewOrderedEventChecker [checkA, checkB, checkC]).feed none
        [SampleEvent.x, SampleEvent.A, SampleEvent.y, SampleEvent.B, SampleEvent.z,
         SampleEvent.C]).checker.FinalCheck none).err = none ∧
    (((NewOrderedEventChecker [checkA, checkB, checkC]).feed none
        [SampleEvent.x, SampleEvent.A, SampleEvent.y, SampleEvent.B, SampleEvent.z,
         SampleEvent.C]).checker.FinalCheck none).checker.idx = 0 := by
  refine ⟨?_, ?_, ?_, ?_⟩
  · intro checks events logger logger2
    obtain ⟨hchecks, hidx⟩ := ordered_feed_greedy events (NewOrderedEventChecker checks) logger
    have hfinal : (((NewOrderedEventChecker checks).feed logger events).checker.FinalCheck
        logger2).err = none ↔
        ((NewOrderedEventChecker checks).feed logger events).checker.idx ≥ checks.length := by
      unfold OrderedEventChecker.FinalCheck
      simp only [hchecks]
      show (if _ ≥ checks.length then _ else _ : FinalResult _).err = none ↔ _
      split
      · simpa
      · rename_i hlt
        simpa using Nat.lt_of_not_ge hlt
    rw [hfinal]
    have hidx2 : ((NewOrderedEventChecker checks).feed logger events).checker.idx
        ≥ checks.length ↔ greedyMatch checks events = true := by
      simpa [NewOrderedEventChecker] using hidx
    rw [hidx2]
    constructor
    · exact greedyMatch_sound events checks
    · rintro ⟨positions, hinc, hacc⟩
      exact greedyMatch_complete events checks positions hinc hacc
  · rfl
  · rfl
  · rfl

/-! ## Lemmas: matching a stream in any order -/

/-- When no two elements accept the event, removing the first accepting
element removes every accepting element. -/
theorem filter_rejecting_of_split (event : Event) (front : List (EventChecker Event))
    (check : EventChecker Event) (rest : List (EventChecker Event))
    (hpair : (front ++ check :: rest).Pairwise
      fun c d => ¬ (c.CheckEvent event = none ∧ d.CheckEvent event = none))
    (hfront : ∀ c ∈ front, c.CheckEvent event ≠ none)
    (hok : check.CheckEvent event = none) :
    (front ++ check :: rest).filter (fun c => (c.CheckEvent event).isSome) = front ++ rest := by
  rw [List.pairwise_append] at hpair
  obtain ⟨_, htail, _⟩ := hpair
  rw [List.pairwise_cons] at htail
  have hrest : ∀ d ∈ rest, d.CheckEvent event ≠ none :=
    fun d hd hdn => htail.1 d hd ⟨hok, hdn⟩
  have h1 : front.filter (fun c => (c.CheckEvent event).isSome) = front :=
    List.filter_eq_self.mpr fun c hc => Option.isSome_iff_ne_none.mpr (hfront c hc)
  have h2 : rest.filter (fun c => (c.CheckEvent event).isSome) = rest :=
    List.filter_eq_self.mpr fun c hc => Option.isSome_iff_ne_none.mpr (hrest c hc)
  rw [List.filter_append, h1, List.filter_cons, h2]
  simp [hok]

/-- When no two pending checks accept the event, `NextEventCheck` of the
unordered checker leaves pending exactly the checks that reject it. -/
theorem unordered_next_filter (checker : UnorderedEventChecker Event) (event : Event)
    (logger : Option Logger)
    (hpair : checker.pendingChecks.Pairwise
      fun c d => ¬ (c.CheckEvent event = none ∧ d.CheckEvent event = none)) :
    (checker.NextEventCheck event logger).checker =
      { checker with
        pendingChecks := checker.pendingChecks.filter fun c => (c.CheckEvent event).isSome } := by
  by_cases hnil : checker.pendingChecks = []
  · rw [unordered_next_empty checker event logger hnil]
    obtain ⟨pendingChecks, totalChecks, allChecks⟩ := checker
    simp only at hnil
    subst hnil
    rfl
  · by_cases h : ∃ c ∈ checker.pendingChecks, c.CheckEvent event = none
    · obtain ⟨front, check, rest, hsplit, hfront, hok⟩ :=
        exists_first_split (fun c => c.CheckEvent event = none) checker.pendingChecks h
      rw [(unordered_next_found checker event logger front check rest hsplit hfront hok).1]
      rw [hsplit] at hpair
      rw [hsplit, filter_rejecting_of_split event front check rest hpair hfront hok]
    · have hrej : ∀ c ∈ checker.pendingChecks, c.CheckEvent event ≠ none :=
        fun c hc hcn => h ⟨c, hc, hcn⟩
      rw [(unordered_next_rejected checker event logger hnil hrej).1]
      have hself : checker.pendingChecks.filter (fun c => (c.CheckEvent event).isSome)
          = checker.pendingChecks :=
        List.filter_eq_self.mpr fun c hc => Option.isSome_iff_ne_none.mpr (hrej c hc)
      rw [hself]

/-- When the pending checks do not overlap on the stream, feeding the stream
to the unordered checker leaves pending exactly the checks that reject every
event of the stream. -/
theorem unordered_feed_filter (events : List Event) :
    ∀ (checker : UnorderedEventChecker Event) (logger : Option Logger),
      NoOverlap checker.pendingChecks events →
      (checker.feed logger events).checker =
        { checker with pendingChecks := checker.pendingChecks.filter (rejectsAll events) } := by
  induction events with
  | nil =>
    intro checker logger _
    have hself : checker.pendingChecks.filter (rejectsAll ([] : List Event))
        = checker.pendingChecks :=
      List.filter_eq_self.mpr fun c _ => rfl
    rw [hself]
    rfl
  | cons e es ih =>
    intro checker logger hno
    have hpair := hno e (List.mem_cons_self e es)
    have hstep := unordered_next_filter checker e logger hpair
    have hfeed : (checker.feed logger (e :: es)).checker =
        ((checker.NextEventCheck e logger).checker.feed
          (checker.NextEventCheck e logger).logger es).checker := rfl
    have hno2 : NoOverlap (checker.NextEventCheck e logger).checker.pendingChecks es := by
      intro ev hev
      rw [hstep]
      exact List.Pairwise.sublist (List.filter_sublist _)
        (hno ev (List.mem_cons_of_mem e hev))
    have hfilter : List.filter (rejectsAll es)
        (List.filter (fun c => (c.CheckEvent e).isSome) checker.pendingChecks)
        = List.filter (rejectsAll (e :: es)) checker.pendingChecks := by
      rw [List.filter_filter]
      congr 1
      funext c
      simp [rejectsAll, Bool.and_comm]
    rw [hfeed, ih _ _ hno2, hstep]
    simp only [hfilter]

/-- Whether a check rejects every event of a stream does not depend on the
order of the stream. -/
theorem rejectsAll_perm (events events2 : List Event) (hperm : events2.Perm events)
    (check : EventChecker Event) : rejectsAll events2 check = rejectsAll events check := by
  unfold rejectsAll
  rw [Bool.eq_iff_iff]
  simp only [List.all_eq_true]
  exact ⟨fun h e he => h e (hperm.mem_iff.mpr he), fun h e he => h e (hperm.mem_iff.mp he)⟩

/-- The error of `FinalCheck` of the unordered checker is nil exactly when
nothing is pending. -/
theorem unordered_final_err_none_iff (checker : UnorderedEventChecker Event)
    (logger : Option Logger) :
    (checker.FinalCheck logger).err = none ↔ checker.pendingChecks = [] := by
  unfold UnorderedEventChecker.FinalCheck
  by_cases hnil : checker.pendingChecks = []
  · simp [hnil]
  · have hlen : ¬ ((checker.pendingChecks.length : Int) = 0) := by
      intro h0
      exact hnil (List.length_eq_zero.mp (by exact_mod_cast h0))
    simp [hnil, hlen]

/-- The error of `FinalCheck` of the unordered checker does not depend on the
logger. -/
theorem unordered_final_err_logger (checker : UnorderedEventChecker Event)
    (logger logger2 : Option Logger) :
    (checker.FinalCheck logger).err = (checker.FinalCheck logger2).err := by
  unfold UnorderedEventChecker.FinalCheck
  by_cases h0 : ((checker.pendingChecks.length : Int) = 0)
  · simp [h0]
  · simp [h0]

/-- A check does not reject every event of a stream exactly when it accepts
one of them. -/
theorem rejectsAll_eq_false_iff (events : List Event) (check : EventChecker Event) :
    ¬ (rejectsAll events check = true) ↔ ∃ e ∈ events, check.CheckEvent e = none := by
  unfold rejectsAll
  rw [Bool.not_eq_true, List.all_eq_false]
  constructor
  · rintro ⟨e, he, hne⟩
    exact ⟨e, he, Option.not_isSome_iff_eq_none.mp hne⟩
  · rintro ⟨e, he, hn⟩
    exact ⟨e, he, Option.not_isSome_iff_eq_none.mpr hn⟩

/-! ## Theorems: the verdict of the unordered checker on a stream -/

/-- C11. Unordered stream verdict: for every list of checks whose predicates
do not overlap on the stream and every finite stream fed to a freshly
constructed `UnorderedEventChecker`, the following `FinalCheck` returns nil if
and only if every check accepts at least one event of the stream, and the
error it returns is the same for every permutation of the stream. For the
checks `[A, B]` and the events `[B, A]` the step results are `(false, nil)`
then `(true, nil)`. -/
theorem unordered_stream_verdict :
    (∀ (checks : List (EventChecker Event)) (events : List Event)
       (logger logger2 : Option Logger),
      NoOverlap checks events →
      (((((NewUnorderedEventChecker checks).feed logger events).checker.FinalCheck
          logger2).err = none ↔
        ∀ c ∈ checks, ∃ e ∈ events, c.CheckEvent e = none) ∧
       (∀ (events2 : List Event) (logger3 logger4 : Option Logger),
        events2.Perm events →
        (((NewUnorderedEventChecker checks).feed logger3 events2).checker.FinalCheck
            logger4).err =
          (((NewUnorderedEventChecker checks).feed logger events).checker.FinalCheck
            logger2).err))) ∧
    ((NewUnorderedEventChecker [checkA, checkB]).feed none
        [SampleEvent.B, SampleEvent.A]).results = [(false, none), (true, none)] := by
  constructor
  · intro checks events logger logger2 hno
    have hno1 : NoOverlap (NewUnorderedEventChecker checks).pendingChecks events := by
      rw [newUnordered_eq]
      exact hno
    have hfeed := unordered_feed_filter events (NewUnorderedEventChecker checks) logger hno1
    constructor
    · rw [unordered_final_err_none_iff, hfeed]
      simp only [newUnordered_eq, List.filter_eq_nil_iff]
      constructor
      · intro h c hc
        exact (rejectsAll_eq_false_iff events c).mp (h c hc)
      · intro h c hc
        exact (rejectsAll_eq_false_iff events c).mpr (h c hc)
    · intro events2 logger3 logger4 hperm
      have hno2 : NoOverlap (NewUnorderedEventChecker checks).pendingChecks events2 := by
        intro e he
        exact hno1 e (hperm.mem_iff.mp he)
      have hfeed2 := unordered_feed_filter events2 (NewUnorderedEventChecker checks) logger3 hno2
      have hsame : rejectsAll events2 = rejectsAll events := by
        funext c
        exact rejectsAll_perm events events2 hperm c
      rw [hfeed2, hfeed, hsame]
      exact unordered_final_err_logger _ logger4 logger2
  · rfl

/-- Witness of C11: the sample checks `[A, B]` do not overlap on the stream
`[B, x, A]`, every check accepts one of its events, and `FinalCheck` returns
nil. -/
theorem unordered_stream_verdict_witness :
    (((NewUnorderedEventChecker [checkA, checkB]).feed none
        [SampleEvent.B, SampleEvent.x, SampleEvent.A]).checker.FinalCheck none).err = none ↔
      ∀ c ∈ [checkA, checkB],
        ∃ e ∈ [SampleEvent.B, SampleEvent.x, SampleEvent.A], c.CheckEvent e = none :=
  (unordered_stream_verdict.1 [checkA, checkB]
    [SampleEvent.B, SampleEvent.x, SampleEvent.A] none none
    (by
      intro e _
      cases e <;> simp [checkA, checkB, checkFor])).1

/-! ## Lemmas: the list of checks -/

/-- Collecting the values of a list at the back of a slice appends them. -/
theorem foldl_append_singleton {α : Type} (l init : List α) :
    l.foldl (fun acc a => acc ++ [a]) init = init ++ l := by
  induction l generalizing init with
  | nil => simp
  | cons a l ih => simp [ih]

/-- `GetChecks` of the unordered checker is the master list. -/
theorem unordered_getChecks_eq (checker : UnorderedEventChecker Event) :
    checker.GetChecks = checker.allChecks := by
  unfold UnorderedEventChecker.GetChecks
  rw [foldl_append_singleton]
  rfl

/-- `NextEventCheck` of the ordered checker never touches the checks list. -/
theorem ordered_next_checks (checker : OrderedEventChecker Event) (event : Event)
    (logger : Option Logger) :
    (checker.NextEventCheck event logger).checker.checks = checker.checks := by
  by_cases hge : checker.idx ≥ checker.checks.length
  · rw [ordered_next_past_end checker event logger hge]
  · have hlt : checker.idx < checker.checks.length := Nat.lt_of_not_ge hge
    cases hc : (checker.checks.get ⟨checker.idx, hlt⟩).CheckEvent event with
    | none => rw [ordered_next_checker_accept checker event logger hlt hc]
    | some err => rw [ordered_next_checker_reject checker event logger err hlt hc]

/-- What `GetChecks` returns after a sequence of calls on an unordered
checker. -/
theorem unordered_runCalls_getChecks (calls : List (Call Event)) :
    ∀ (checker : UnorderedEventChecker Event),
      (checker.runCalls calls).1.GetChecks = checker.GetChecks ++ addedChecks calls := by
  induction calls with
  | nil =>
    intro checker
    simp [UnorderedEventChecker.runCalls, addedChecks]
  | cons c cs ih =>
    intro checker
    show ((checker.call c).1.runCalls cs).1.GetChecks = _
    rw [ih]
    simp only [unordered_getChecks_eq]
    cases c with
    | nextEvent event logger =>
      show (checker.NextEventCheck event logger).checker.allChecks ++ _ = _
      rw [(unordered_next_frame checker event logger).1]
      rfl
    | finalCheck logger =>
      show (checker.FinalCheck logger).checker.allChecks ++ _ = _
      rw [unordered_final_checker]
      rfl
    | addChecks checks =>
      show (checker.AddChecks checks).allChecks ++ _ = _
      rw [unordered_addChecks_eq]
      simp [addedChecks]

/-! ## Theorems: reuse, appending checks, the list of checks -/

/-- C12. Reusability after `FinalCheck`, for the ordered and the unordered
checker: whatever the state and the verdict, the checker that `FinalCheck`
leaves behind is the checker freshly constructed from its `GetChecks()` list
(which `FinalCheck` did not change), so every subsequent sequence of calls
returns the same results on both; the ordered cursor is back at 0 and the
unordered pending list is the whole list again. -/
theorem reusable_after_final_check :
    (∀ (checker : OrderedEventChecker Event) (logger : Option Logger),
      (checker.FinalCheck logger).checker =
        NewOrderedEventChecker (checker.FinalCheck logger).checker.GetChecks ∧
      (checker.FinalCheck logger).checker.GetChecks = checker.GetChecks ∧
      (checker.FinalCheck logger).checker.idx = 0 ∧
      (∀ (calls : List (Call Event)),
        ((checker.FinalCheck logger).checker.runCalls calls).2 =
          ((NewOrderedEventChecker
            (checker.FinalCheck logger).checker.GetChecks).runCalls calls).2)) ∧
    (∀ (checker : UnorderedEventChecker Event) (logger : Option Logger),
      (checker.FinalCheck logger).checker =
        NewUnorderedEventChecker (checker.FinalCheck logger).checker.GetChecks ∧
      (checker.FinalCheck logger).checker.GetChecks = checker.GetChecks ∧
      (checker.FinalCheck logger).checker.pendingChecks = checker.GetChecks ∧
      (∀ (calls : List (Call Event)),
        ((checker.FinalCheck logger).checker.runCalls calls).2 =
          ((NewUnorderedEventChecker
            (checker.FinalCheck logger).checker.GetChecks).runCalls calls).2)) := by
  constructor
  · intro checker logger
    have hfresh : (checker.FinalCheck logger).checker =
        NewOrderedEventChecker (checker.FinalCheck logger).checker.GetChecks := by
      rw [ordered_final_checker]
      rfl
    refine ⟨hfresh, ?_, ?_, ?_⟩
    · rw [ordered_final_checker]
      rfl
    · rw [ordered_final_checker]
    · intro calls
      rw [← hfresh]
  · intro checker logger
    have hfresh : (checker.FinalCheck logger).checker =
        NewUnorderedEventChecker (checker.FinalCheck logger).checker.GetChecks := by
      rw [unordered_getChecks_eq, newUnordered_eq, unordered_final_checker]
    refine ⟨hfresh, ?_, ?_, ?_⟩
    · rw [unordered_getChecks_eq, unordered_getChecks_eq, unordered_final_checker]
    · rw [unordered_getChecks_eq, unordered_final_checker]
    · intro calls
      rw [← hfresh]

/-- C13. `UnorderedEventChecker.AddChecks` mid-run: for every state and every
list `cs` of new checks, the call appends `cs` in order to the tail of both
`all` and pending and adds `len(cs)` to the total count, and nothing else. So
when the old pending checks reject an event and `check` is the first of the
added checks that accepts it, the very next `NextEventCheck` matches `check`
and removes it; the checks that were matched before the add are not pending
again until `FinalCheck` restores the whole list. -/
theorem unordered_add_checks (checker : UnorderedEventChecker Event)
    (cs : List (EventChecker Event)) :
    (checker.AddChecks cs).pendingChecks = checker.pendingChecks ++ cs ∧
    (checker.AddChecks cs).allChecks = checker.allChecks ++ cs ∧
    (checker.AddChecks cs).totalChecks = checker.totalChecks + cs.length ∧
    (∀ (event : Event) (logger : Option Logger) (front : List (EventChecker Event))
       (check : EventChecker Event) (rest : List (EventChecker Event)),
      cs = front ++ check :: rest →
      (∀ c ∈ checker.pendingChecks, c.CheckEvent event ≠ none) →
      (∀ c ∈ front, c.CheckEvent event ≠ none) →
      check.CheckEvent event = none →
      (((checker.AddChecks cs).NextEventCheck event logger).err = none ∧
       ((checker.AddChecks cs).NextEventCheck event logger).checker.pendingChecks
         = checker.pendingChecks ++ (front ++ rest) ∧
       ((checker.AddChecks cs).NextEventCheck event logger).calls
         = checker.pendingChecks ++ front ++ [check])) ∧
    (∀ (logger : Option Logger),
      ((checker.AddChecks cs).FinalCheck logger).checker.pendingChecks
        = checker.allChecks ++ cs) := by
  have hadd := unordered_addChecks_eq checker cs
  refine ⟨by rw [hadd], by rw [hadd], by rw [hadd], ?_, ?_⟩
  · intro event logger front check rest hcs hold hfront hok
    have hsplit : (checker.AddChecks cs).pendingChecks
        = (checker.pendingChecks ++ front) ++ check :: rest := by
      rw [hadd, hcs]
      simp
    have hrej : ∀ c ∈ checker.pendingChecks ++ front, c.CheckEvent event ≠ none := by
      intro c hc
      rcases List.mem_append.mp hc with h1 | h2
      · exact hold c h1
      · exact hfront c h2
    obtain ⟨hchk, hcalls, herr, _⟩ :=
      unordered_next_found (checker.AddChecks cs) event logger
        (checker.pendingChecks ++ front) check rest hsplit hrej hok
    refine ⟨herr, ?_, hcalls⟩
    rw [hchk]
    simp
  · intro logger
    rw [unordered_final_checker, hadd]

/-- Witness of C13: the checks `[A, B]` after the event `A` have `[B]`
pending; adding `[C]` and feeding `C` matches the added check and leaves `[B]`
pending. -/
theorem unordered_add_checks_witness :
    ((((NewUnorderedEventChecker [checkA, checkB]).NextEventCheck
        SampleEvent.A none).checker.AddChecks [checkC]).NextEventCheck
          SampleEvent.C none).err = none ∧
    ((((NewUnorderedEventChecker [checkA, checkB]).NextEventCheck
        SampleEvent.A none).checker.AddChecks [checkC]).NextEventCheck
          SampleEvent.C none).checker.pendingChecks = [checkB] :=
  ⟨((unordered_add_checks ((NewUnorderedEventChecker [checkA, checkB]).NextEventCheck
        SampleEvent.A none).checker [checkC]).2.2.2.1 SampleEvent.C none [] checkC [] rfl
      (by
        intro c hc
        have hb : c = checkB := List.mem_singleton.mp hc
        rw [hb]
        simp [checkB, checkFor])
      (by simp) rfl).1,
   ((unordered_add_checks ((NewUnorderedEventChecker [checkA, checkB]).NextEventCheck
        SampleEvent.A none).checker [checkC]).2.2.2.1 SampleEvent.C none [] checkC [] rfl
      (by
        intro c hc
        have hb : c = checkB := List.mem_singleton.mp hc
        rw [hb]
        simp [checkB, checkFor])
      (by simp) rfl).2.1.trans rfl⟩

/-- C14. `OrderedEventChecker.AddChecks`: for every state and every list `cs`
of new checks, the checks list becomes the old list followed by `cs` in order
and `idx` is unchanged; every position below the old length holds the check it
held before, the added checks sit at the positions from the old length on,
and while the cursor is below the old length the next `NextEventCheck`
consults the same check, returns the same error and leaves the same cursor as
it would without the add. -/
theorem ordered_add_checks (checker : OrderedEventChecker Event)
    (cs : List (EventChecker Event)) :
    (checker.AddChecks cs).checks = checker.checks ++ cs ∧
    (checker.AddChecks cs).idx = checker.idx ∧
    (∀ (i : Nat), i < checker.checks.length →
      (checker.AddChecks cs).checks[i]? = checker.checks[i]?) ∧
    (∀ (i : Nat), (checker.AddChecks cs).checks[checker.checks.length + i]? = cs[i]?) ∧
    (∀ (event : Event) (logger : Option Logger), checker.idx < checker.checks.length →
      (((checker.AddChecks cs).NextEventCheck event logger).calls
          = (checker.NextEventCheck event logger).calls ∧
       ((checker.AddChecks cs).NextEventCheck event logger).err
          = (checker.NextEventCheck event logger).err ∧
       ((checker.AddChecks cs).NextEventCheck event logger).checker.idx
          = (checker.NextEventCheck event logger).checker.idx)) := by
  have hadd := ordered_addChecks_eq checker cs
  refine ⟨by rw [hadd], by rw [hadd], ?_, ?_, ?_⟩
  · intro i hi
    rw [hadd]
    exact List.getElem?_append_left hi
  · intro i
    rw [hadd]
    show (checker.checks ++ cs)[checker.checks.length + i]? = cs[i]?
    rw [List.getElem?_append_right (Nat.le_add_right _ _), Nat.add_sub_cancel_left]
  · intro event logger hlt
    rw [hadd]
    have hlt2 : checker.idx < (checker.checks ++ cs).length := by
      rw [List.length_append]
      exact Nat.lt_of_lt_of_le hlt (Nat.le_add_right _ _)
    have hget : (checker.checks ++ cs).get ⟨checker.idx, hlt2⟩
        = checker.checks.get ⟨checker.idx, hlt⟩ := by
      simp only [List.get_eq_getElem]
      exact List.getElem_append_left hlt
    have hge : ¬ checker.idx ≥ checker.checks.length := Nat.not_le.mpr hlt
    have hge2 : ¬ checker.idx ≥ (checker.checks ++ cs).length := Nat.not_le.mpr hlt2
    unfold OrderedEventChecker.NextEventCheck
    simp only [dif_neg hge, dif_neg hge2, hget]
    cases hc : (checker.checks.get ⟨checker.idx, hlt⟩).CheckEvent event with
    | some err => simp only [and_self]
    | none =>
      simp only
      refine ⟨?_, ?_, ?_⟩ <;> (split <;> split <;> rfl)

/-- Witness of C14: adding `[C]` to the ordered checker on `[A, B]` keeps the
cursor, and the next event `A` is still checked by `A`. -/
theorem ordered_add_checks_witness :
    (((NewOrderedEventChecker [checkA, checkB]).AddChecks [checkC]).NextEventCheck
        SampleEvent.A none).calls
      = ((NewOrderedEventChecker [checkA, checkB]).NextEventCheck SampleEvent.A none).calls ∧
    ((NewOrderedEventChecker [checkA, checkB]).AddChecks [checkC]).checks[1]?
      = (NewOrderedEventChecker [checkA, checkB]).checks[1]? :=
  ⟨((ordered_add_checks (NewOrderedEventChecker [checkA, checkB]) [checkC]).2.2.2.2
      SampleEvent.A none (by decide)).1,
   (ordered_add_checks (NewOrderedEventChecker [checkA, checkB]) [checkC]).2.2.1 1
      (by decide)⟩

/-! ## Lemmas: slices -/

/-- Writing slot `n` of an array and reading its first `n + 1` slots. -/
theorem take_succ_set {α : Type} (l : List α) (n : Nat) (v : α) (h : n < l.length) :
    (l.set n v).take (n + 1) = l.take n ++ [v] := by
  induction l generalizing n with
  | nil => cases h
  | cons a l ih =>
    cases n with
    | zero => rfl
    | succ n =>
      have h2 : n < l.length := Nat.lt_of_succ_lt_succ h
      simp only [List.set_cons_succ, List.take_succ_cons, List.cons_append, ih n h2]

/-- Reading the first `n + 1` slots of a copy of `n` slots followed by a new
value. -/
theorem take_succ_copy {α : Type} (l : List α) (n : Nat) (v : α) (rest : List α)
    (h : n ≤ l.length) : (l.take n ++ v :: rest).take (n + 1) = l.take n ++ [v] := by
  induction l generalizing n with
  | nil =>
    have h0 : n = 0 := Nat.le_zero.mp h
    subst h0
    rfl
  | cons a l ih =>
    cases n with
    | zero => rfl
    | succ n =>
      have h2 : n ≤ l.length := Nat.le_of_succ_le_succ h
      simp only [List.take_succ_cons, List.cons_append, ih n h2]

/-- What the holder of a slice sees after `append`: its elements followed by
the new value, whether the value was written in place or into a fresh backing
array. -/
theorem append_elems (grow : Nat → Nat) (heap : Heap Event) (s : Slice)
    (v : Option (EventChecker Event)) (harr : s.array < heap.length)
    (hcap : s.cap ≤ (heap.getD s.array []).length) (hlen : s.len ≤ s.cap) :
    Heap.elems (Heap.append grow heap s v).1 (Heap.append grow heap s v).2
      = Heap.elems heap s ++ [v] := by
  unfold Heap.append
  by_cases hlt : s.len < s.cap
  · have hin : s.len < (heap.getD s.array []).length := Nat.lt_of_lt_of_le hlt hcap
    have hget : (heap.set s.array ((heap.getD s.array []).set s.len v)).getD s.array []
        = (heap.getD s.array []).set s.len v := by
      simp [List.getD_eq_getElem?_getD, List.getElem?_set_self, harr]
    simp only [hlt, if_true, Heap.elems, hget]
    exact take_succ_set _ _ _ hin
  · have hfull : s.len ≤ (heap.getD s.array []).length := Nat.le_trans hlen hcap
    have hget : ∀ x : List (Option (EventChecker Event)),
        (heap ++ [x]).getD heap.length [] = x := by
      intro x
      simp [List.getD_eq_getElem?_getD]
    simp only [hlt, if_false, Heap.elems, hget]
    exact take_succ_copy _ _ _ _ hfull

/-- C15, on the ordered checker's live slice. The run
`c := NewOrderedEventChecker(A, B, C)`, `c.AddChecks(X)`,
`f := NewOrderedEventChecker(c.GetChecks()...)`, `c.AddChecks(XY)`,
`f.AddChecks(A)` ends, for every runtime that gives the full 3-element slice
a capacity of at least 5 (Go gives 6), with `c.GetChecks()` holding
`[A, B, C, X, A]`: the append of `f` wrote into the backing array that
`GetChecks` had handed out. That is not the constructor's checks of `c`
followed by the arguments of its `AddChecks` calls, `[A, B, C, X, XY]`. -/
theorem get_checks_shared_slice (grow : Nat → Nat) (hgrow : 5 ≤ grow 3) :
    sharedSliceRun grow =
      [some checkA, some checkB, some checkC, some checkX, some checkA] ∧
    sharedSliceRun grow ≠ ([checkA, checkB, checkC] ++ [checkX] ++ [checkXY]).map some := by
  obtain ⟨k, hk⟩ : ∃ k, max (grow 3) (3 + 1) = k + 5 := ⟨max (grow 3) 4 - 5, by omega⟩
  have hrun : sharedSliceRun grow =
      [some checkA, some checkB, some checkC, some checkX, some checkA] := by
    simp [sharedSliceRun, Heap.variadic, slices.OrderedEventChecker.AddChecks,
      slices.OrderedEventChecker.addLoop, Heap.append, slices.NewOrderedEventChecker,
      slices.OrderedEventChecker.GetChecks, Heap.elems, hk, List.replicate_succ]
  refine ⟨hrun, ?_⟩
  rw [hrun]
  intro heq
  have hlast : checkA = checkXY := by
    simpa using heq
  have hy := congrArg (fun c => c.CheckEvent SampleEvent.y) hlast
  simp [checkA, checkXY, checkFor] at hy

/-- Witness of C15: with the doubling of the Go runtime (capacity 3 grows to
6) the run ends with `[A, B, C, X, A]`. -/
theorem get_checks_shared_slice_witness :
    sharedSliceRun growDouble =
      [some checkA, some checkB, some checkC, some checkX, some checkA] :=
  (get_checks_shared_slice growDouble (by decide)).1

/-! ## Lemmas: loggers -/

/-- A logger left alone has received zero messages. -/
theorem receives_refl (logger : Option Logger) : receives logger logger := by
  cases logger with
  | none => trivial
  | some l => exact ⟨[], by simp⟩

/-- Receiving messages twice is receiving messages. -/
theorem receives_trans (l1 l2 l3 : Option Logger) (h12 : receives l1 l2)
    (h23 : receives l2 l3) : receives l1 l3 := by
  cases l1 <;> cases l2 <;> cases l3 <;> simp only [receives] at h12 h23 ⊢
  obtain ⟨m1, h1⟩ := h12
  obtain ⟨m2, h2⟩ := h23
  exact ⟨m1 ++ m2, by rw [h2, h1, List.append_assoc]⟩

/-- A guarded `Infof` call appends one message to a present logger and skips
an absent one. -/
theorem receives_infof (logger : Option Logger) (format : String) (args : List LogArg) :
    receives logger (logger.map fun l => l.Infof format args) := by
  cases logger with
  | none => trivial
  | some l => exact ⟨[{ format := format, args := args }], rfl⟩

/-- The scan loop returns the same checker, calls and pair `(done, err)`
whatever the logger. -/
theorem scanPending_logger (checker : UnorderedEventChecker Event) (event : Event)
    (pending : Int) :
    ∀ (rest : List (EventChecker Event)) (pos : Nat) (idx : Int)
      (logger logger2 : Option Logger) (calls : List (EventChecker Event)),
      (checker.scanPending event pending rest pos idx logger calls).checker
        = (checker.scanPending event pending rest pos idx logger2 calls).checker ∧
      (checker.scanPending event pending rest pos idx logger calls).calls
        = (checker.scanPending event pending rest pos idx logger2 calls).calls ∧
      (checker.scanPending event pending rest pos idx logger calls).done
        = (checker.scanPending event pending rest pos idx logger2 calls).done ∧
      (checker.scanPending event pending rest pos idx logger calls).err
        = (checker.scanPending event pending rest pos idx logger2 calls).err := by
  intro rest
  induction rest with
  | nil =>
    intro pos idx logger logger2 calls
    simp [UnorderedEventChecker.scanPending]
  | cons m rest ih =>
    intro pos idx logger logger2 calls
    cases hm : m.CheckEvent event with
    | none =>
      simp only [UnorderedEventChecker.scanPending, hm]
      by_cases hp : pending - 1 > 0
      · simp [hp]
      · simp [hp]
    | some err =>
      simp only [UnorderedEventChecker.scanPending, hm]
      exact ih _ _ _ _ _

/-- The scan loop only appends messages to the logger. -/
theorem scanPending_receives (checker : UnorderedEventChecker Event) (event : Event)
    (pending : Int) :
    ∀ (rest : List (EventChecker Event)) (pos : Nat) (idx : Int)
      (logger : Option Logger) (calls : List (EventChecker Event)),
      receives logger (checker.scanPending event pending rest pos idx logger calls).logger := by
  intro rest
  induction rest with
  | nil =>
    intro pos idx logger calls
    exact receives_refl logger
  | cons m rest ih =>
    intro pos idx logger calls
    cases hm : m.CheckEvent event with
    | none =>
      simp only [UnorderedEventChecker.scanPending, hm]
      by_cases hp : pending - 1 > 0
      · simp only [hp, if_true]
        exact receives_refl logger
      · simp only [hp, if_false]
        exact receives_infof logger _ _
    | some err =>
      simp only [UnorderedEventChecker.scanPending, hm]
      exact receives_trans _ _ _ (receives_infof logger _ _) (ih _ _ _ _)

/-- `NextEventCheck` of the ordered checker returns the same checker, calls
and pair `(done, err)` whatever the logger, and only appends messages to it. -/
theorem ordered_next_logger (checker : OrderedEventChecker Event) (event : Event)
    (logger logger2 : Option Logger) :
    (checker.NextEventCheck event logger).checker
      = (checker.NextEventCheck event logger2).checker ∧
    (checker.NextEventCheck event logger).calls
      = (checker.NextEventCheck event logger2).calls ∧
    (checker.NextEventCheck event logger).done
      = (checker.NextEventCheck event logger2).done ∧
    (checker.NextEventCheck event logger).err
      = (checker.NextEventCheck event logger2).err ∧
    receives logger (checker.NextEventCheck event logger).logger := by
  by_cases hge : checker.idx ≥ checker.checks.length
  · rw [ordered_next_past_end checker event logger hge,
      ordered_next_past_end checker event logger2 hge]
    exact ⟨rfl, rfl, rfl, rfl, receives_refl logger⟩
  · have hlt : checker.idx < checker.checks.length := Nat.lt_of_not_ge hge
    unfold OrderedEventChecker.NextEventCheck
    simp only [dif_neg hge]
    cases hc : (checker.checks.get ⟨checker.idx, hlt⟩).CheckEvent event with
    | some err => exact ⟨rfl, rfl, rfl, rfl, receives_refl logger⟩
    | none =>
      simp only
      by_cases hlen : checker.idx + 1 = checker.checks.length
      · simp only [hlen, if_true]
        exact ⟨trivial, trivial, trivial, trivial, receives_infof logger _ _⟩
      · simp only [hlen, if_false]
        exact ⟨trivial, trivial, trivial, trivial, receives_infof logger _ _⟩

/-- `NextEventCheck` of the unordered checker returns the same checker, calls
and pair `(done, err)` whatever the logger, and only appends messages to it. -/
theorem unordered_next_logger (checker : UnorderedEventChecker Event) (event : Event)
    (logger logger2 : Option Logger) :
    (checker.NextEventCheck event logger).checker
      = (checker.NextEventCheck event logger2).checker ∧
    (checker.NextEventCheck event logger).calls
      = (checker.NextEventCheck event logger2).calls ∧
    (checker.NextEventCheck event logger).done
      = (checker.NextEventCheck event logger2).done ∧
    (checker.NextEventCheck event logger).err
      = (checker.NextEventCheck event logger2).err ∧
    receives logger (checker.NextEventCheck event logger).logger := by
  by_cases hnil : checker.pendingChecks = []
  · rw [unordered_next_empty checker event logger hnil,
      unordered_next_empty checker event logger2 hnil]
    exact ⟨rfl, rfl, rfl, rfl, receives_refl logger⟩
  · rw [unordered_next_eq_scan checker event logger hnil,
      unordered_next_eq_scan checker event logger2 hnil]
    obtain ⟨h1, h2, h3, h4⟩ := scanPending_logger checker event
      checker.pendingChecks.length checker.pendingChecks 0 1
      (logger.map fun l =>
        l.Infof "UnorderedEventChecker: %d/%d matched"
          [LogArg.int ((checker.totalChecks : Int) - (checker.pendingChecks.length : Int)),
           LogArg.int checker.totalChecks])
      (logger2.map fun l =>
        l.Infof "UnorderedEventChecker: %d/%d matched"
          [LogArg.int ((checker.totalChecks : Int) - (checker.pendingChecks.length : Int)),
           LogArg.int checker.totalChecks]) []
    exact ⟨h1, h2, h3, h4,
      receives_trans _ _ _ (receives_infof logger _ _) (scanPending_receives _ _ _ _ _ _ _ _)⟩

/-- `FinalCheck` of the ordered checker returns the same error whatever the
logger, and leaves the logger alone. -/
theorem ordered_final_logger (checker : OrderedEventChecker Event)
    (logger logger2 : Option Logger) :
    (checker.FinalCheck logger).err = (checker.FinalCheck logger2).err ∧
    (checker.FinalCheck logger).logger = logger := by
  unfold OrderedEventChecker.FinalCheck
  by_cases hge : checker.idx ≥ checker.checks.length
  · simp [hge]
  · simp [hge]

/-- `FinalCheck` of the unordered checker leaves the logger alone. -/
theorem unordered_final_logger (checker : UnorderedEventChecker Event)
    (logger : Option Logger) : (checker.FinalCheck logger).logger = logger := by
  unfold UnorderedEventChecker.FinalCheck
  by_cases h0 : ((checker.pendingChecks.length : Int) = 0)
  · simp [h0]
  · simp [h0]

/-! ## Theorems: the logger -/

/-- C16. Logger non-interference, for the ordered and the unordered checker:
for every state, event and pair of logger arguments (absent or present),
`NextEventCheck` returns the same `(done, err)`, makes the same `CheckEvent`
calls and leaves the same checker, and `FinalCheck` returns the same error and
leaves the same checker; the logger only receives messages (`NextEventCheck`
appends to it, `FinalCheck` leaves it alone, an absent logger stays absent). -/
theorem logger_non_interference :
    (∀ (checker : OrderedEventChecker Event) (event : Event)
       (logger logger2 : Option Logger),
      ((checker.NextEventCheck event logger).done
          = (checker.NextEventCheck event logger2).done ∧
       (checker.NextEventCheck event logger).err
          = (checker.NextEventCheck event logger2).err ∧
       (checker.NextEventCheck event logger).checker
          = (checker.NextEventCheck event logger2).checker ∧
       (checker.NextEventCheck event logger).calls
          = (checker.NextEventCheck event logger2).calls ∧
       receives logger (checker.NextEventCheck event logger).logger) ∧
      ((checker.FinalCheck logger).err = (checker.FinalCheck logger2).err ∧
       (checker.FinalCheck logger).checker = (checker.FinalCheck logger2).checker ∧
       (checker.FinalCheck logger).logger = logger)) ∧
    (∀ (checker : UnorderedEventChecker Event) (event : Event)
       (logger logger2 : Option Logger),
      ((checker.NextEventCheck event logger).done
          = (checker.NextEventCheck event logger2).done ∧
       (checker.NextEventCheck event logger).err
          = (checker.NextEventCheck event logger2).err ∧
       (checker.NextEventCheck event logger).checker
          = (checker.NextEventCheck event logger2).checker ∧
       (checker.NextEventCheck event logger).calls
          = (checker.NextEventCheck event logger2).calls ∧
       receives logger (checker.NextEventCheck event logger).logger) ∧
      ((checker.FinalCheck logger).err = (checker.FinalCheck logger2).err ∧
       (checker.FinalCheck logger).checker = (checker.FinalCheck logger2).checker ∧
       (checker.FinalCheck logger).logger = logger)) := by
  constructor
  · intro checker event logger logger2
    obtain ⟨h1, h2, h3, h4, h5⟩ := ordered_next_logger checker event logger logger2
    refine ⟨⟨h3, h4, h1, h2, h5⟩, (ordered_final_logger checker logger logger2).1, ?_,
      (ordered_final_logger checker logger logger2).2⟩
    rw [ordered_final_checker, ordered_final_checker]
  · intro checker event logger logger2
    obtain ⟨h1, h2, h3, h4, h5⟩ := unordered_next_logger checker event logger logger2
    refine ⟨⟨h3, h4, h1, h2, h5⟩, unordered_final_err_logger checker logger logger2, ?_,
      unordered_final_logger checker logger⟩
    rw [unordered_final_checker, unordered_final_checker]

/-! ## Lemmas: how one step moves the state -/

/-- `NextEventCheck` of the ordered checker either leaves the cursor where it
is, or the check under the cursor accepted the event and the cursor moved by
one. -/
theorem ordered_next_idx_cases (checker : OrderedEventChecker Event) (event : Event)
    (logger : Option Logger) :
    (checker.NextEventCheck event logger).checker.idx = checker.idx ∨
    ∃ h : checker.idx < checker.checks.length,
      (checker.checks.get ⟨checker.idx, h⟩).CheckEvent event = none ∧
      (checker.NextEventCheck event logger).checker.idx = checker.idx + 1 := by
  by_cases hge : checker.idx ≥ checker.checks.length
  · left
    rw [ordered_next_past_end checker event logger hge]
  · have hlt : checker.idx < checker.checks.length := Nat.lt_of_not_ge hge
    cases hc : (checker.checks.get ⟨checker.idx, hlt⟩).CheckEvent event with
    | none =>
      right
      exact ⟨hlt, hc, by rw [ordered_next_checker_accept checker event logger hlt hc]⟩
    | some err =>
      left
      rw [ordered_next_checker_reject checker event logger err hlt hc]

/-- The `CheckEvent` calls of `NextEventCheck` of the ordered checker: none,
or one on the check under the cursor, which is then in range. -/
theorem ordered_next_calls_cases (checker : OrderedEventChecker Event) (event : Event)
    (logger : Option Logger) :
    (checker.idx ≥ checker.checks.length ∧ (checker.NextEventCheck event logger).calls = []) ∨
    ∃ h : checker.idx < checker.checks.length,
      (checker.NextEventCheck event logger).calls = [checker.checks.get ⟨checker.idx, h⟩] := by
  by_cases hge : checker.idx ≥ checker.checks.length
  · left
    rw [ordered_next_past_end checker event logger hge]
    exact ⟨hge, rfl⟩
  · have hlt : checker.idx < checker.checks.length := Nat.lt_of_not_ge hge
    right
    refine ⟨hlt, ?_⟩
    unfold OrderedEventChecker.NextEventCheck
    rw [dif_neg hge]
    cases hc : (checker.checks.get ⟨checker.idx, hlt⟩).CheckEvent event with
    | some err => simp only [hc]
    | none =>
      simp only [hc]
      split <;> rfl

/-- When the ordered checker returns `done = true` the error is nil. -/
theorem ordered_done_err (checker : OrderedEventChecker Event) (event : Event)
    (logger : Option Logger) (hdone : (checker.NextEventCheck event logger).done = true) :
    (checker.NextEventCheck event logger).err = none := by
  by_cases hge : checker.idx ≥ checker.checks.length
  · rw [ordered_next_past_end checker event logger hge]
  · have hlt : checker.idx < checker.checks.length := Nat.lt_of_not_ge hge
    revert hdone
    unfold OrderedEventChecker.NextEventCheck
    rw [dif_neg hge]
    cases hc : (checker.checks.get ⟨checker.idx, hlt⟩).CheckEvent event with
    | some err =>
      simp only [hc]
      intro hdone
      cases hdone
    | none =>
      simp only [hc]
      intro _
      split <;> rfl

/-- `NextEventCheck` of the unordered checker either leaves pending as it is,
or removes the first pending check that accepts the event. -/
theorem unordered_next_pending_cases (checker : UnorderedEventChecker Event) (event : Event)
    (logger : Option Logger) :
    ((checker.NextEventCheck event logger).checker.pendingChecks = checker.pendingChecks ∧
      ((checker.NextEventCheck event logger).done = true →
        (checker.NextEventCheck event logger).err = none)) ∨
    ∃ (front : List (EventChecker Event)) (check : EventChecker Event)
      (rest : List (EventChecker Event)),
      checker.pendingChecks = front ++ check :: rest ∧
      check.CheckEvent event = none ∧
      (checker.NextEventCheck event logger).checker.pendingChecks = front ++ rest ∧
      (checker.NextEventCheck event logger).err = none := by
  by_cases hnil : checker.pendingChecks = []
  · left
    rw [unordered_next_empty checker event logger hnil]
    exact ⟨rfl, fun _ => rfl⟩
  · by_cases h : ∃ c ∈ checker.pendingChecks, c.CheckEvent event = none
    · right
      obtain ⟨front, check, rest, hsplit, hfront, hok⟩ :=
        exists_first_split (fun c => c.CheckEvent event = none) checker.pendingChecks h
      obtain ⟨hchk, _, herr, _⟩ :=
        unordered_next_found checker event logger front check rest hsplit hfront hok
      exact ⟨front, check, rest, hsplit, hok, by rw [hchk], herr⟩
    · left
      have hrej : ∀ c ∈ checker.pendingChecks, c.CheckEvent event ≠ none :=
        fun c hc hcn => h ⟨c, hc, hcn⟩
      obtain ⟨hchk, _, _, hdone⟩ := unordered_next_rejected checker event logger hnil hrej
      refine ⟨by rw [hchk], ?_⟩
      intro hd
      rw [hdone] at hd
      cases hd

/-- `NextEventCheck` of the unordered checker leaves a sub-list of pending. -/
theorem unordered_next_sublist (checker : UnorderedEventChecker Event) (event : Event)
    (logger : Option Logger) :
    List.Sublist (checker.NextEventCheck event logger).checker.pendingChecks
      checker.pendingChecks := by
  rcases unordered_next_pending_cases checker event logger with h | h
  · rw [h.1]
  · obtain ⟨front, check, rest, hsplit, _, hpend, _⟩ := h
    rw [hpend, hsplit]
    exact List.Sublist.append (List.Sublist.refl front) (List.sublist_cons_self check rest)

/-- In every reachable state of the unordered checker pending is a sub-list of
the master list. -/
theorem unordered_reachable_sublist (checker : UnorderedEventChecker Event)
    (hr : checker.Reachable) : List.Sublist checker.pendingChecks checker.allChecks := by
  induction hr with
  | new checks =>
    rw [newUnordered_eq]
  | nextEvent checker event logger _ ih =>
    rw [(unordered_next_frame checker event logger).1]
    exact List.Sublist.trans (unordered_next_sublist checker event logger) ih
  | nextResponse Response EventFromResponse checker response logger _ ih =>
    unfold UnorderedEventChecker.NextResponseCheck
    cases EventFromResponse response with
    | error err => exact ih
    | ok event =>
      show List.Sublist (checker.NextEventCheck event logger).checker.pendingChecks
        (checker.NextEventCheck event logger).checker.allChecks
      rw [(unordered_next_frame checker event logger).1]
      exact List.Sublist.trans (unordered_next_sublist checker event logger) ih
  | addChecks checker cs _ ih =>
    rw [unordered_addChecks_eq]
    exact List.Sublist.append ih (List.Sublist.refl cs)
  | finalCheck checker logger _ ih =>
    rw [unordered_final_checker]

/-! ## Theorems: invariants of reachable states -/

/-- C17. Ordered cursor invariant: in every reachable state
`0 ≤ idx ≤ len(checks)`. `NextEventCheck` either leaves `idx` where it is or
`checks[idx]` accepted the event and `idx` grew by exactly 1, and so does
`NextResponseCheck` (through the event its adapter returned); `AddChecks`
leaves `idx` unchanged; `FinalCheck` sets it to 0. The only `CheckEvent` call
of `NextEventCheck` is on the check at `idx`, which is in range. -/
theorem ordered_cursor_invariant :
    (∀ (checker : OrderedEventChecker Event), checker.Reachable →
      (0 : Int) ≤ (checker.idx : Int) ∧ checker.idx ≤ checker.checks.length) ∧
    (∀ (checker : OrderedEventChecker Event) (event : Event) (logger : Option Logger),
      (checker.NextEventCheck event logger).checker.idx = checker.idx ∨
      ∃ h : checker.idx < checker.checks.length,
        (checker.checks.get ⟨checker.idx, h⟩).CheckEvent event = none ∧
        (checker.NextEventCheck event logger).checker.idx = checker.idx + 1) ∧
    (∀ (Response : Type) (EventFromResponse : Response → Except Error Event)
       (checker : OrderedEventChecker Event) (response : Response) (logger : Option Logger),
      (checker.NextResponseCheck EventFromResponse response logger).checker.idx
          = checker.idx ∨
      ∃ (event : Event) (h : checker.idx < checker.checks.length),
        EventFromResponse response = Except.ok event ∧
        (checker.checks.get ⟨checker.idx, h⟩).CheckEvent event = none ∧
        (checker.NextResponseCheck EventFromResponse response logger).checker.idx
          = checker.idx + 1) ∧
    (∀ (checker : OrderedEventChecker Event) (cs : List (EventChecker Event)),
      (checker.AddChecks cs).idx = checker.idx) ∧
    (∀ (checker : OrderedEventChecker Event) (logger : Option Logger),
      (checker.FinalCheck logger).checker.idx = 0) ∧
    (∀ (checker : OrderedEventChecker Event) (event : Event) (logger : Option Logger),
      (checker.idx ≥ checker.checks.length ∧
        (checker.NextEventCheck event logger).calls = []) ∨
      ∃ h : checker.idx < checker.checks.length,
        (checker.NextEventCheck event logger).calls
          = [checker.checks.get ⟨checker.idx, h⟩]) := by
  refine ⟨?_, ?_, ?_, ?_, ?_, ?_⟩
  · intro checker hr
    exact ⟨Int.ofNat_nonneg _, ordered_reachable_wf checker hr⟩
  · intro checker event logger
    exact ordered_next_idx_cases checker event logger
  · intro Response EventFromResponse checker response logger
    unfold OrderedEventChecker.NextResponseCheck
    cases hresp : EventFromResponse response with
    | error err =>
      left
      rfl
    | ok event =>
      rcases ordered_next_idx_cases checker event logger with h | ⟨h, hok, hidx⟩
      · left
        exact h
      · right
        exact ⟨event, h, rfl, hok, hidx⟩
  · intro checker cs
    rw [ordered_addChecks_eq]
  · intro checker logger
    rw [ordered_final_checker]
  · intro checker event logger
    exact ordered_next_calls_cases checker event logger

/-- Witness of C17: the state reached from the checks `[A, B]` by the event
`A` has its cursor in range. -/
theorem ordered_cursor_invariant_witness :
    ((NewOrderedEventChecker [checkA, checkB]).NextEventCheck SampleEvent.A none).checker.idx
      ≤ ((NewOrderedEventChecker [checkA, checkB]).NextEventCheck
          SampleEvent.A none).checker.checks.length :=
  (ordered_cursor_invariant.1
    ((NewOrderedEventChecker [checkA, checkB]).NextEventCheck SampleEvent.A none).checker
    (OrderedEventChecker.Reachable.nextEvent _ _ _
      (OrderedEventChecker.Reachable.new _))).2

/-- C18. Unordered pending invariant: in every reachable state pending is an
order-preserving sub-list of `all` and the total count is `|all|`.
`NextEventCheck` either leaves pending as it is or some pending check accepted
the event and `|pending|` went down by exactly 1, and so does
`NextResponseCheck`; `AddChecks` lengthens pending; in a reachable state
`FinalCheck` does not shorten it. `all` never shrinks: `NextEventCheck`,
`NextResponseCheck` and `FinalCheck` leave it alone and `AddChecks` appends
to it. -/
theorem unordered_pending_invariant :
    (∀ (checker : UnorderedEventChecker Event), checker.Reachable →
      List.Sublist checker.pendingChecks checker.allChecks ∧
      checker.totalChecks = checker.allChecks.length) ∧
    (∀ (checker : UnorderedEventChecker Event) (event : Event) (logger : Option Logger),
      ((checker.NextEventCheck event logger).checker.pendingChecks = checker.pendingChecks ∨
        ((∃ c ∈ checker.pendingChecks, c.CheckEvent event = none) ∧
          (checker.NextEventCheck event logger).checker.pendingChecks.length + 1
            = checker.pendingChecks.length)) ∧
      (checker.NextEventCheck event logger).checker.allChecks = checker.allChecks) ∧
    (∀ (Response : Type) (EventFromResponse : Response → Except Error Event)
       (checker : UnorderedEventChecker Event) (response : Response) (logger : Option Logger),
      ((checker.NextResponseCheck EventFromResponse response logger).checker.pendingChecks
          = checker.pendingChecks ∨
        ∃ event : Event, EventFromResponse response = Except.ok event ∧
          (∃ c ∈ checker.pendingChecks, c.CheckEvent event = none) ∧
          (checker.NextResponseCheck EventFromResponse response
              logger).checker.pendingChecks.length + 1
            = checker.pendingChecks.length) ∧
      (checker.NextResponseCheck EventFromResponse response logger).checker.allChecks
        = checker.allChecks) ∧
    (∀ (checker : UnorderedEventChecker Event) (cs : List (EventChecker Event)),
      (checker.AddChecks cs).pendingChecks.length = checker.pendingChecks.length + cs.length ∧
      (checker.AddChecks cs).allChecks = checker.allChecks ++ cs) ∧
    (∀ (checker : UnorderedEventChecker Event) (logger : Option Logger),
      (checker.FinalCheck logger).checker.allChecks = checker.allChecks ∧
      (checker.Reachable →
        checker.pendingChecks.length
          ≤ (checker.FinalCheck logger).checker.pendingChecks.length)) := by
  have hstep : ∀ (checker : UnorderedEventChecker Event) (event : Event)
      (logger : Option Logger),
      (checker.NextEventCheck event logger).checker.pendingChecks = checker.pendingChecks ∨
        ((∃ c ∈ checker.pendingChecks, c.CheckEvent event = none) ∧
          (checker.NextEventCheck event logger).checker.pendingChecks.length + 1
            = checker.pendingChecks.length) := by
    intro checker event logger
    rcases unordered_next_pending_cases checker event logger with h | h
    · left
      exact h.1
    · right
      obtain ⟨front, check, rest, hsplit, hok, hpend, _⟩ := h
      refine ⟨⟨check, ?_, hok⟩, ?_⟩
      · rw [hsplit]
        simp
      · rw [hpend, hsplit]
        simp
        omega
  refine ⟨?_, ?_, ?_, ?_, ?_⟩
  · intro checker hr
    exact ⟨unordered_reachable_sublist checker hr, unordered_reachable_total checker hr⟩
  · intro checker event logger
    exact ⟨hstep checker event logger, (unordered_next_frame checker event logger).1⟩
  · intro Response EventFromResponse checker response logger
    unfold UnorderedEventChecker.NextResponseCheck
    cases hresp : EventFromResponse response with
    | error err => exact ⟨Or.inl rfl, rfl⟩
    | ok event =>
      refine ⟨?_, (unordered_next_frame checker event logger).1⟩
      rcases hstep checker event logger with h | h
      · left
        exact h
      · right
        exact ⟨event, rfl, h.1, h.2⟩
  · intro checker cs
    rw [unordered_addChecks_eq]
    simp
  · intro checker logger
    rw [unordered_final_checker]
    refine ⟨rfl, ?_⟩
    intro hr
    exact List.Sublist.length_le (unordered_reachable_sublist checker hr)

/-- Witness of C18: the state reached from the checks `[A, B]` by the event
`B` has its pending list inside the master list and the right total. -/
theorem unordered_pending_invariant_witness :
    List.Sublist
      ((NewUnorderedEventChecker [checkA, checkB]).NextEventCheck
        SampleEvent.B none).checker.pendingChecks
      ((NewUnorderedEventChecker [checkA, checkB]).NextEventCheck
        SampleEvent.B none).checker.allChecks ∧
    ((NewUnorderedEventChecker [checkA, checkB]).NextEventCheck
        SampleEvent.B none).checker.totalChecks
      = ((NewUnorderedEventChecker [checkA, checkB]).NextEventCheck
        SampleEvent.B none).checker.allChecks.length :=
  unordered_pending_invariant.1
    ((NewUnorderedEventChecker [checkA, checkB]).NextEventCheck SampleEvent.B none).checker
    (UnorderedEventChecker.Reachable.nextEvent _ _ _
      (UnorderedEventChecker.Reachable.new _))

/-- C19. Done means success and completion, for the ordered and the unordered
checker: in every reachable state and for every event, a `NextEventCheck` that
returns `done = true` returns a nil error; it returns `done = true` if and only
if the state it leaves has no unmatched checks (ordered: `idx = len(checks)`;
unordered: pending is empty); and after `done = true` an immediately following
`FinalCheck` returns nil. -/
theorem done_means_complete :
    (∀ (checker : OrderedEventChecker Event), checker.Reachable →
      ∀ (event : Event) (logger : Option Logger),
        ((checker.NextEventCheck event logger).done = true →
          (checker.NextEventCheck event logger).err = none) ∧
        ((checker.NextEventCheck event logger).done = true ↔
          (checker.NextEventCheck event logger).checker.idx
            = (checker.NextEventCheck event logger).checker.checks.length) ∧
        ((checker.NextEventCheck event logger).done = true →
          ∀ (logger2 : Option Logger),
            ((checker.NextEventCheck event logger).checker.FinalCheck logger2).err = none)) ∧
    (∀ (checker : UnorderedEventChecker Event), checker.Reachable →
      ∀ (event : Event) (logger : Option Logger),
        ((checker.NextEventCheck event logger).done = true →
          (checker.NextEventCheck event logger).err = none) ∧
        ((checker.NextEventCheck event logger).done = true ↔
          (checker.NextEventCheck event logger).checker.pendingChecks = []) ∧
        ((checker.NextEventCheck event logger).done = true →
          ∀ (logger2 : Option Logger),
            ((checker.NextEventCheck event logger).checker.FinalCheck logger2).err = none)) := by
  constructor
  · intro checker hr event logger
    have hwf : (checker.NextEventCheck event logger).checker.WF :=
      ordered_next_wf checker event logger (ordered_reachable_wf checker hr)
    unfold OrderedEventChecker.WF at hwf
    have hiff := ordered_done_iff checker event logger
    refine ⟨ordered_done_err checker event logger, ?_, ?_⟩
    · constructor
      · intro hdone
        exact Nat.le_antisymm hwf (hiff.mp hdone)
      · intro heq
        exact hiff.mpr (Nat.le_of_eq heq.symm)
    · intro hdone logger2
      have hge := hiff.mp hdone
      unfold OrderedEventChecker.FinalCheck
      simp [hge]
  · intro checker _ event logger
    have hiff := unordered_done_iff checker event logger
    refine ⟨?_, hiff, ?_⟩
    · intro hdone
      rcases unordered_next_pending_cases checker event logger with h | h
      · exact h.2 hdone
      · obtain ⟨_, _, _, _, _, _, herr⟩ := h
        exact herr
    · intro hdone logger2
      exact (unordered_final_err_none_iff _ logger2).mpr (hiff.mp hdone)

/-- Witness of C19: the ordered checker on `[A]`, fed `A`, is done with a nil
error, and the unordered checker on `[A]`, fed `A`, then passes `FinalCheck`. -/
theorem done_means_complete_witness :
    ((NewOrderedEventChecker [checkA]).NextEventCheck SampleEvent.A none).err = none ∧
    (((NewUnorderedEventChecker [checkA]).NextEventCheck
        SampleEvent.A none).checker.FinalCheck none).err = none :=
  ⟨(done_means_complete.1 (NewOrderedEventChecker [checkA])
      (OrderedEventChecker.Reachable.new _) SampleEvent.A none).1 rfl,
   (done_means_complete.2 (NewUnorderedEventChecker [checkA])
      (UnorderedEventChecker.Reachable.new _) SampleEvent.A none).2.2 rfl none⟩

/-- C20. First-match tie-breaking is not a complete matching: for the checks
`[XY, X]` (the first accepts `x` and `y`, the second only `x`) and the stream
`[x, y]` there is an assignment of distinct stream events to all checks that
every check accepts, yet a freshly constructed `UnorderedEventChecker` fed
that stream never returns `done = true` and its `FinalCheck` reports 1 of 2
checks remaining; fed the same events in the order `[y, x]` it is done at the
second event and `FinalCheck` returns nil. -/
theorem first_match_not_complete :
    HasAssignment [checkXY, checkX] [SampleEvent.x, SampleEvent.y] ∧
    ((NewUnorderedEventChecker [checkXY, checkX]).feed none
        [SampleEvent.x, SampleEvent.y]).results =
      [(false, none),
       (false, some (Errorf "UnorderedEventChecker: all %d checks failed" [1]))] ∧
    (∀ r ∈ ((NewUnorderedEventChecker [checkXY, checkX]).feed none
        [SampleEvent.x, SampleEvent.y]).results, r.1 = false) ∧
    (((NewUnorderedEventChecker [checkXY, checkX]).feed none
        [SampleEvent.x, SampleEvent.y]).checker.FinalCheck none).err =
      some (Errorf "UnorderedEventChecker: %d/%d checks remain" [1, 2]) ∧
    List.Perm [SampleEvent.y, SampleEvent.x] [SampleEvent.x, SampleEvent.y] ∧
    ((NewUnorderedEventChecker [checkXY, checkX]).feed none
        [SampleEvent.y, SampleEvent.x]).results = [(false, none), (true, none)] ∧
    (((NewUnorderedEventChecker [checkXY, checkX]).feed none
        [SampleEvent.y, SampleEvent.x]).checker.FinalCheck none).err = none := by
  have hres : ((NewUnorderedEventChecker [checkXY, checkX]).feed none
      [SampleEvent.x, SampleEvent.y]).results =
      [(false, none),
       (false, some (Errorf "UnorderedEventChecker: all %d checks failed" [1]))] := rfl
  refine ⟨?_, hres, ?_, rfl, ?_, rfl, rfl⟩
  · refine ⟨[1, 0], by decide, ?_⟩
    exact List.Forall₂.cons ⟨SampleEvent.y, rfl, rfl⟩
      (List.Forall₂.cons ⟨SampleEvent.x, rfl, rfl⟩ List.Forall₂.nil)
  · intro r hr
    rw [hres] at hr
    rcases List.mem_cons.mp hr with h | h
    · rw [h]
    · rw [List.mem_singleton.mp h]
  · exact List.Perm.swap SampleEvent.x SampleEvent.y []

end eventchecker
